import Mathlib

/-!
# LowPassFilterFixedPt: a fixed-point multi-pole low-pass filter

A shallow embedding of `LowPassFiltersFixedPt.cpp` and of the declarations of `ADCFilter.hpp`.

* `int32_t` values are integers in `[-2^31, 2^31)`; every operation that can leave that
  range is followed by `toInt32` (two's-complement wrap-around).
* `uint32_t` values are naturals below `2^32`, `uint64_t` values naturals below `2^64`.
* `x >> n` on a signed value is the arithmetic shift, `x / 2 ^ n` with floor division.
* The object state is passed explicitly; a reference parameter is passed in and returned.
* `LowPassFiltersFixedPt.hpp` is not among the sources. Its constants and the fixed-point
  format members are the fields of `HeaderConsts`; its inline helpers are modelled from the
  specification and marked as such.
-/

namespace LowPassFilters

/-! ## Machine integers -/

/-- Conversion of an integer to `int32_t` (two's-complement wrap-around). -/
def toInt32 (x : Int) : Int := (x + 2147483648) % 4294967296 - 2147483648

/-- Conversion of an integer to `uint32_t`. -/
def toUInt32 (x : Int) : Nat := (x % 4294967296).toNat

/-- Conversion of a natural number to `uint64_t`. -/
def toUInt64 (n : Nat) : Nat := n % 18446744073709551616

/-- The values an `int32_t` can hold. -/
def IsInt32 (x : Int) : Prop := -2147483648 ≤ x ∧ x < 2147483648

instance (x : Int) : Decidable (IsInt32 x) := by
  unfold IsInt32; infer_instance

/-! ## Data model -/

/-- Constants and fixed-point format members that `LowPassFiltersFixedPt.cpp` reads but
that are declared in the header: parameters of the embedding. -/
structure HeaderConsts where
  /-- The `PI_OMEGA` constant, a 64-bit factor. -/
  PI_OMEGA : Nat
  /-- The `ROUND_OFF_FRAC_64` constant, the 64-bit rounding bias. -/
  ROUND_OFF_FRAC_64 : Nat
  /-- Register width in bits (`wordBits`). -/
  m_IntNumBitsInInt : Nat
  /-- Number of fractional bits of the fixed-point format. -/
  m_NumberOfFrcntlBits : Nat
  /-- Rounding bias of the cascade. -/
  m_RoundOffValue : Nat
  /-- Sign mask of a register. -/
  m_IntMSBSet : Nat
  /-- Left shift that scales a raw reading. -/
  m_ScaledIntegerLSBBitPos : Nat
deriving DecidableEq, Repr

/-- The mutable members of a `LowPassFilterFixedPt` object. The capacity of the pole bank,
`sizeof(m_pole) / sizeof(int)`, is the length of `m_pole`. -/
structure LowPassFilterFixedPt where
  /-- Configured corner frequency (`uint32_t`). -/
  m_CornerFreq : Nat
  /-- Configured sampling period (`uint32_t`). -/
  m_SamplingPeriod : Nat
  /-- Lag coefficient (`uint32_t`). -/
  m_LagCoefficient : Nat
  /-- Resolution of the converter. -/
  m_AtoDResolutionBits : Nat
  /-- Number of poles of the filter. -/
  m_NumberOfPoles : Nat
  /-- The pole bank, one `int32_t` register per slot. -/
  m_pole : List Int
  /-- Enablement flag. -/
  m_FilteringEnabled : Bool
  /-- Set while the filter waits for its first sample after a restart. -/
  m_RestartPending : Bool
deriving DecidableEq, Repr

/-! ## Helpers declared in the header -/

/-- Modelled from the spec: the header's inline `IsFilteringEnabled`, the read-only query of
the enablement flag of the filter configuration. -/
def IsFilteringEnabled (s : LowPassFilterFixedPt) : Bool := s.m_FilteringEnabled

/-- Modelled from the spec: the header's inline `GetLagCoefficient`, the stored coefficient. -/
def GetLagCoefficient (s : LowPassFilterFixedPt) : Nat := s.m_LagCoefficient

/-- Modelled from the spec: the header's inline `SetCornerFreq`
("stores the new corner frequency"). -/
def SetCornerFreq (s : LowPassFilterFixedPt) (uiCornerFreq : Nat) : LowPassFilterFixedPt :=
  { s with m_CornerFreq := uiCornerFreq }

/-- Modelled from the spec: the header's inline `SetSamplingPeriod`
("stores the new ... sampling period"). -/
def SetSamplingPeriod (s : LowPassFilterFixedPt) (uiSamplePeriod : Nat) :
    LowPassFilterFixedPt :=
  { s with m_SamplingPeriod := uiSamplePeriod }

/-- Modelled from the spec: the header's inline `SetLagCoefficient`, which stores the
derived coefficient. -/
def SetLagCoefficient (s : LowPassFilterFixedPt) (uiLagCoefficient : Nat) :
    LowPassFilterFixedPt :=
  { s with m_LagCoefficient := uiLagCoefficient }

/-- Modelled from the spec: the header's inline `RestartFiltering`, the transition to the
restarting state ("Transition to Restarting occurs on any cascade overflow or explicit
restart request"). -/
def RestartFiltering (s : LowPassFilterFixedPt) : LowPassFilterFixedPt :=
  { s with m_RestartPending := true }

/-! ## LowPassFiltersFixedPt.cpp -/

/-- The loop of `InitFilterDataForRestart`: `n` is `m_NumberOfPoles - i` and the list holds
`m_pole[i ..]`, so the guard `i < capacity && i < m_NumberOfPoles` is "both are non-empty". -/
def InitFilterDataLoop (InitialFilterOutput : Int) : Nat → List Int → List Int
  | 0, poles => poles
  | _ + 1, [] => []
  | n + 1, _ :: rest => InitialFilterOutput :: InitFilterDataLoop InitialFilterOutput n rest

/-- Embedding of `LowPassFilterFixedPt::InitFilterDataForRestart`. -/
def InitFilterDataForRestart (s : LowPassFilterFixedPt) (InitialFilterOutput : Int) :
    LowPassFilterFixedPt :=
  { s with m_pole := InitFilterDataLoop InitialFilterOutput s.m_NumberOfPoles s.m_pole }

/-- Embedding of `LowPassFilterFixedPt::IsThereOverflowFromAddSbtrct`, on `uint32_t` arguments. -/
def IsThereOverflowFromAddSbtrct (K : HeaderConsts) (uiTerm1 uiTerm2 uiResult : Nat) : Bool :=
  let uiTerm1MSB := uiTerm1 &&& K.m_IntMSBSet
  let uiTerm2MSB := uiTerm2 &&& K.m_IntMSBSet
  let uiResultMSB := uiResult &&& K.m_IntMSBSet
  decide (uiTerm1MSB ^^^ uiTerm2MSB = 0) && decide (uiTerm1MSB ^^^ uiResultMSB ≠ 0)

/-- Embedding of `LowPassFilterFixedPt::IsFilterOutputValid`; its `int32_t` arguments are converted to the
`uint32_t` parameters of the overflow test. -/
def IsFilterOutputValid (K : HeaderConsts) (iDiffEqTerm1 iDiffEqTerm2 iFilterOuput : Int) :
    Bool :=
  IsThereOverflowFromAddSbtrct K (toUInt32 iDiffEqTerm1) (toUInt32 iDiffEqTerm2)
    (toUInt32 iFilterOuput)

/-- One pass through the body of the loop of `CalcDiffEquation`, for the pole value `pole`:
`none` when one of the three checks makes the function return false, otherwise the value
stored into the pole. -/
def CalcDiffStage (K : HeaderConsts) (iLagCoefficient iCurrentFilterResult pole : Int) :
    Option Int :=
  let iSecondTermOfDiffEq := toInt32 (iCurrentFilterResult - pole)
  if IsThereOverflowFromAddSbtrct K (toUInt32 iCurrentFilterResult) (toUInt32 pole)
      (toUInt32 iSecondTermOfDiffEq) then none
  else
    let iSecondTermIntPart := iSecondTermOfDiffEq / 2 ^ K.m_NumberOfFrcntlBits
    let iFilterResultIntPart := toInt32 (iSecondTermIntPart * iLagCoefficient)
    let uiFractionMask := toUInt32 ((K.m_RoundOffValue : Int) - 1) ||| K.m_RoundOffValue
    let iFilterResultFracPart0 := toInt32 (toUInt32 iSecondTermOfDiffEq &&& uiFractionMask : Nat)
    let iFilterResultFracPart1 := toInt32 (iFilterResultFracPart0 * iLagCoefficient)
    let iFilterResultFracPart2 := toInt32 (iFilterResultFracPart1 + K.m_RoundOffValue)
    let iFilterResultFracPart :=
      iFilterResultFracPart2 / 2 ^ (K.m_IntNumBitsInInt - K.m_NumberOfFrcntlBits)
    let iLagValue := toInt32 (iFilterResultIntPart + iFilterResultFracPart)
    if IsThereOverflowFromAddSbtrct K (toUInt32 iFilterResultIntPart)
        (toUInt32 iFilterResultFracPart) (toUInt32 iLagValue) then none
    else
      let iCurrentFilterResult := toInt32 (iLagValue + pole)
      if IsThereOverflowFromAddSbtrct K (toUInt32 iLagValue) (toUInt32 pole)
          (toUInt32 iCurrentFilterResult) then none
      else some iCurrentFilterResult

/-- The loop of `CalcDiffEquation`: `n` is `m_NumberOfPoles - i` and the list holds
`m_pole[i ..]`. The result is the success flag, the final `iCurrentFilterResult` and the
pole values from index `i` on; a failing check stops the loop at once. -/
def CalcDiffLoop (K : HeaderConsts) (iLagCoefficient : Int) :
    Nat → Int → List Int → Bool × Int × List Int
  | 0, iCurrentFilterResult, poles => (true, iCurrentFilterResult, poles)
  | _ + 1, iCurrentFilterResult, [] => (true, iCurrentFilterResult, [])
  | n + 1, iCurrentFilterResult, pole :: rest =>
    match CalcDiffStage K iLagCoefficient iCurrentFilterResult pole with
    | none => (false, iCurrentFilterResult, pole :: rest)
    | some newPole =>
      let r := CalcDiffLoop K iLagCoefficient n newPole rest
      (r.1, r.2.1, newPole :: r.2.2)

/-- Embedding of `LowPassFilterFixedPt::CalcDiffEquation`. `rFilteredValue` is the value the reference
parameter holds on entry; the result is the return value, the value of the reference
parameter on exit and the object afterwards. -/
def CalcDiffEquation (K : HeaderConsts) (s : LowPassFilterFixedPt)
    (iScaledAtoD iLagCoefficient rFilteredValue : Int) : Bool × Int × LowPassFilterFixedPt :=
  let r := CalcDiffLoop K iLagCoefficient s.m_NumberOfPoles iScaledAtoD s.m_pole
  if r.1 then (true, r.2.1, { s with m_pole := r.2.2 })
  else (false, rFilteredValue, { s with m_pole := r.2.2 })

/-- The shift count of `ConfigureFilter`,
`m_IntNumBitsInInt + (m_IntNumBitsInInt - m_NumberOfFrcntlBits)`. The outer sum brings an
inner difference that is negative (that wrapped around, for unsigned members) back, so the
count is the integer `2 * wordBits - fractionalBits`: 48 for 32/16 and 24 for 32/40. A count
that is negative or above 63 is undefined for the 64-bit shift; the count is 0 here when
`2 * wordBits < fractionalBits`. -/
def lagShiftCount (K : HeaderConsts) : Nat :=
  ((K.m_IntNumBitsInInt : Int) + ((K.m_IntNumBitsInInt : Int) - K.m_NumberOfFrcntlBits)).toNat

/-- Embedding of `LowPassFilterFixedPt::ConfigureFilter`, the configuration of the base engine. -/
def ConfigureFilter (K : HeaderConsts) (s : LowPassFilterFixedPt)
    (uiCornerFreq uiSamplePeriod : Nat) : Bool × LowPassFilterFixedPt :=
  let s := SetCornerFreq s uiCornerFreq
  let s := SetSamplingPeriod s uiSamplePeriod
  let llAccum := toUInt64 (toUInt64 (K.PI_OMEGA * uiCornerFreq) * uiSamplePeriod)
  let llSecondTermInApprox := toUInt64 (4294967296 + (18446744073709551616 - llAccum))
  let llAccum := toUInt64 (llAccum * llSecondTermInApprox)
  let llAccum := toUInt64 (llAccum + K.ROUND_OFF_FRAC_64)
  let llAccum := llAccum / 2 ^ lagShiftCount K
  let uiLagCoefficient := llAccum % 4294967296
  (true, SetLagCoefficient s uiLagCoefficient)

/-- Modelled from the spec: the header's inline `ReconfigureWithNewCornerFrequencey`
("If the requested corner frequency differs from the currently configured one, call
ConfigureFilter"). `configure` is the `ConfigureFilter` of the object's class, which a
subclass overrides; the sampling period is the stored one. -/
def ReconfigureWithNewCornerFrequencey
    (configure : LowPassFilterFixedPt → Nat → Nat → Bool × LowPassFilterFixedPt)
    (s : LowPassFilterFixedPt) (uiCornerFreq : Nat) : Bool × LowPassFilterFixedPt :=
  if uiCornerFreq ≠ s.m_CornerFreq then configure s uiCornerFreq s.m_SamplingPeriod
  else (true, s)

/-- Modelled from the spec: the header's inline `HasFilterRestarted` ("If the filter is in a
just restarted state ... seed the pole bank with the scaled raw value and return success").
The result is the return value and the object afterwards. -/
def HasFilterRestarted (s : LowPassFilterFixedPt) (rFilterOutput : Int) :
    Bool × LowPassFilterFixedPt :=
  if s.m_RestartPending then
    (true, { InitFilterDataForRestart s rFilterOutput with m_RestartPending := false })
  else (false, s)

/-- Embedding of `LowPassFilterFixedPt::ApplyFilter`. The result is the return value, the value left in
`rFilterOutput` and the object afterwards. -/
def ApplyFilter (K : HeaderConsts)
    (configure : LowPassFilterFixedPt → Nat → Nat → Bool × LowPassFilterFixedPt)
    (s : LowPassFilterFixedPt) (iAtoDValueRead : Int) (uiCornerFreqToFilter : Nat) :
    Bool × Int × LowPassFilterFixedPt :=
  let iScaledAtoD := toInt32 (iAtoDValueRead * 2 ^ K.m_ScaledIntegerLSBBitPos)
  let rFilterOutput := iScaledAtoD
  if !IsFilteringEnabled s then (false, rFilterOutput, s)
  else
    let rc := ReconfigureWithNewCornerFrequencey configure s uiCornerFreqToFilter
    if !rc.1 then (false, rFilterOutput, rc.2)
    else
      let hr := HasFilterRestarted rc.2 rFilterOutput
      if hr.1 then (true, rFilterOutput, hr.2)
      else
        let iLagCoefficient := toInt32 (GetLagCoefficient hr.2)
        let cd := CalcDiffEquation K hr.2 iScaledAtoD iLagCoefficient rFilterOutput
        if !cd.1 then (false, iScaledAtoD, RestartFiltering cd.2.2)
        else (true, cd.2.1, cd.2.2)

/-- A sample instance of the header constants: 32-bit registers, 16 fractional bits, rounding
bias `2^15`, sign mask bit 31, 64-bit rounding bias `2^47`, and for `PI_OMEGA` the value of
`pi * 2^32 / 10^6`. -/
def consts32_16 : HeaderConsts :=
  { PI_OMEGA := 13493
    ROUND_OFF_FRAC_64 := 140737488355328
    m_IntNumBitsInInt := 32
    m_NumberOfFrcntlBits := 16
    m_RoundOffValue := 32768
    m_IntMSBSet := 2147483648
    m_ScaledIntegerLSBBitPos := 16 }

/-- A four-pole filter, enabled, waiting for its first sample. -/
def filter4 : LowPassFilterFixedPt :=
  { m_CornerFreq := 50
    m_SamplingPeriod := 50
    m_LagCoefficient := 511
    m_AtoDResolutionBits := 12
    m_NumberOfPoles := 4
    m_pole := [0, 0, 0, 0]
    m_FilteringEnabled := true
    m_RestartPending := true }

/-- A four-pole filter in steady state whose poles lie above the next reading. -/
def filter4Steady : LowPassFilterFixedPt :=
  { filter4 with m_pole := [65536, 65536, 65536, 65536], m_RestartPending := false }

/-- A format with 8 fractional bits in a 32-bit word. -/
def consts32_8 : HeaderConsts :=
  { consts32_16 with
    m_NumberOfFrcntlBits := 8
    m_RoundOffValue := 128
    m_ScaledIntegerLSBBitPos := 8 }

/-! ## The loops over the pole bank with explicit indices

The same two loops written with the index `i` of the source, accesses to `m_pole` that fail
outside the array, and a log of the indices accessed. -/

/-- A read of `m_pole[i]`: `none` when `i` is outside the array. -/
def readPole (poles : List Int) (i : Nat) : Option Int := poles[i]?

/-- A write `m_pole[i] = v`: `none` when `i` is outside the array. -/
def writePole (poles : List Int) (i : Nat) (v : Int) : Option (List Int) :=
  if i < poles.length then some (poles.set i v) else none

/-- The loop of `InitFilterDataForRestart` from index `i` on, `capacity` being
`sizeof(m_pole) / sizeof(uint32_t)`. The result is `none` when an access leaves the array,
otherwise the pole bank and the indices accessed. -/
def InitFilterDataIndexed (capacity N : Nat) (InitialFilterOutput : Int) (i : Nat)
    (poles : List Int) (touched : List Nat) : Option (List Int × List Nat) :=
  if _h : i < capacity ∧ i < N then
    match writePole poles i InitialFilterOutput with
    | none => none
    | some poles1 =>
      InitFilterDataIndexed capacity N InitialFilterOutput (i + 1) poles1 (touched ++ [i])
  else some (poles, touched)
termination_by capacity - i
decreasing_by omega

/-- `InitFilterDataForRestart` with explicit indices: the object afterwards and the indices
accessed, or `none` when an access leaves the array. -/
def InitFilterDataForRestartIndexed (s : LowPassFilterFixedPt) (InitialFilterOutput : Int) :
    Option (LowPassFilterFixedPt × List Nat) :=
  match InitFilterDataIndexed s.m_pole.length s.m_NumberOfPoles InitialFilterOutput 0
      s.m_pole [] with
  | none => none
  | some r => some ({ s with m_pole := r.1 }, r.2)

/-- The loop of `CalcDiffEquation` from index `i` on, `capacity` being
`sizeof(m_pole) / sizeof(int)`. A pass reads `m_pole[i]` and, when its checks pass, writes
`m_pole[i]`. The result is `none` when an access leaves the array, otherwise the success
flag, the final `iCurrentFilterResult`, the pole bank and the indices accessed. -/
def CalcDiffIndexed (K : HeaderConsts) (iLagCoefficient : Int) (capacity N : Nat) (i : Nat)
    (iCurrentFilterResult : Int) (poles : List Int) (touched : List Nat) :
    Option ((Bool × Int × List Int) × List Nat) :=
  if _h : i < capacity ∧ i < N then
    match readPole poles i with
    | none => none
    | some pole =>
      match CalcDiffStage K iLagCoefficient iCurrentFilterResult pole with
      | none => some ((false, iCurrentFilterResult, poles), touched ++ [i])
      | some newPole =>
        match writePole poles i newPole with
        | none => none
        | some poles1 =>
          CalcDiffIndexed K iLagCoefficient capacity N (i + 1) newPole poles1
            (touched ++ [i, i])
  else some ((true, iCurrentFilterResult, poles), touched)
termination_by capacity - i
decreasing_by omega

/-- `CalcDiffEquation` with explicit indices: its result and the indices accessed, or `none`
when an access leaves the array. -/
def CalcDiffEquationIndexed (K : HeaderConsts) (s : LowPassFilterFixedPt)
    (iScaledAtoD iLagCoefficient rFilteredValue : Int) :
    Option ((Bool × Int × LowPassFilterFixedPt) × List Nat) :=
  match CalcDiffIndexed K iLagCoefficient s.m_pole.length s.m_NumberOfPoles 0 iScaledAtoD
      s.m_pole [] with
  | none => none
  | some r =>
    if r.1.1 then some ((true, r.1.2.1, { s with m_pole := r.1.2.2 }), r.2)
    else some ((false, rFilteredValue, { s with m_pole := r.1.2.2 }), r.2)

/-! ## ADCFilter.hpp -/

/-- The constant `FIELD_SIDE_NUMBER_OF_POLES` of `ADCFilter`. -/
def FIELD_SIDE_NUMBER_OF_POLES : Nat := 4

/-- The constant `NO_SHIFT_BIT_POS` of `ADCFilter`. -/
def NO_SHIFT_BIT_POS : Nat := 22

/-- The values of the enumeration `VALID_FREQUENCIES` of `ADCFilter`. -/
def VALID_FREQUENCIES : List Nat := [100, 50, 25, 10, 5, 1]

/-- Modelled from the spec: the fixed reference sampling period of the shift-optimized
variant ("the design's reference period is 50 time units"); the header only mentions it in
its description. -/
def REFERENCE_SAMPLING_PERIOD : Nat := 50

/-- The members of an `ADCFilter` object: those of the base class and the shift factor. -/
structure ADCFilter extends LowPassFilterFixedPt where
  /-- Shift factor for multiplication by the lag coefficient. -/
  m_FrequencyShiftFactor : Int
deriving DecidableEq, Repr

/-- Modelled from the spec: `ADCFilter::ConfigureFilter`, which ADCFilter.hpp declares and
whose body is missing ("fails immediately if samplePeriod does not match the fixed reference
period or if cornerFreq is not one of the enumerated values. Otherwise derives and stores a
shift factor"). `shiftFor` is the map from a supported corner frequency to its shift factor,
which the specification leaves open. -/
def ADCFilter.ConfigureFilter (shiftFor : Nat → Int) (a : ADCFilter)
    (uiCornerFreq uiSamplingPeriod : Nat) : Bool × ADCFilter :=
  if uiSamplingPeriod ≠ REFERENCE_SAMPLING_PERIOD ∨ uiCornerFreq ∉ VALID_FREQUENCIES then
    (false, a)
  else (true, { a with m_FrequencyShiftFactor := shiftFor uiCornerFreq })

/-- A shift-optimized filter around `filter4`. -/
def adcFilter4 : ADCFilter :=
  { toLowPassFilterFixedPt := filter4
    m_FrequencyShiftFactor := 3 }

/-- A format with 8 fractional bits in a 16-bit word. -/
def consts16_8 : HeaderConsts :=
  { consts32_16 with
    m_IntNumBitsInInt := 16
    m_NumberOfFrcntlBits := 8
    m_RoundOffValue := 128
    m_ScaledIntegerLSBBitPos := 8 }

/-- A format with more fractional bits than the 32-bit word has bits. -/
def consts32_40 : HeaderConsts :=
  { consts32_16 with m_NumberOfFrcntlBits := 40 }

/-! ## Reference definitions, written from the specification -/

/-- The lag coefficient in the words of the specification: the low 32 bits of
`(accum * (2^32 - accum) + ROUND_OFF_FRAC_64) mod 2^64` shifted right by `shift`, where
`accum = PI_OMEGA * fc * T` as a 64-bit value. -/
def specLagCoefficient (K : HeaderConsts) (shift fc T : Nat) : Nat :=
  let accum : Int := ((K.PI_OMEGA : Int) * fc * T) % 18446744073709551616
  ((accum * (4294967296 - accum) + K.ROUND_OFF_FRAC_64) % 18446744073709551616 / 2 ^ shift
    % 4294967296).toNat

/-- The difference `diff_i = in_i - old pole[i]` of a stage, in a 32-bit register. -/
def stageDiff (inp old : Int) : Int := toInt32 (inp - old)

/-- The term `intTerm_i = (diff_i >> fractionalBits) * lagCoefficient`, in a 32-bit register. -/
def intTerm (K : HeaderConsts) (lagCoefficient diff : Int) : Int :=
  toInt32 (diff / 2 ^ K.m_NumberOfFrcntlBits * lagCoefficient)

/-- The mask `fractionMask = (roundOff - 1) | roundOff`. -/
def fractionMask (K : HeaderConsts) : Nat :=
  toUInt32 ((K.m_RoundOffValue : Int) - 1) ||| K.m_RoundOffValue

/-- The term `fracTerm_i = ((diff_i & fractionMask) * lagCoefficient + roundOff) >>
(wordBits - fractionalBits)`, every intermediate value in a 32-bit register. -/
def fracTerm (K : HeaderConsts) (lagCoefficient diff : Int) : Int :=
  toInt32 (toInt32 (toInt32 (toUInt32 diff &&& fractionMask K : Nat) * lagCoefficient)
    + K.m_RoundOffValue) / 2 ^ (K.m_IntNumBitsInInt - K.m_NumberOfFrcntlBits)

/-- The value a stage of the reference recurrence stores: `old pole + intTerm + fracTerm`,
the two sums in 32-bit registers. -/
def refNewPole (K : HeaderConsts) (lagCoefficient inp old : Int) : Int :=
  toInt32 (toInt32 (intTerm K lagCoefficient (stageDiff inp old)
    + fracTerm K lagCoefficient (stageDiff inp old)) + old)

/-- The inputs of the stages of the reference recurrence: `in_0` is the scaled input and
`in_(i+1)` is the new value of pole `i`. -/
def refIn (K : HeaderConsts) (lagCoefficient scaled : Int) (oldPoles : List Int) : Nat → Int
  | 0 => scaled
  | i + 1 => refNewPole K lagCoefficient (refIn K lagCoefficient scaled oldPoles i)
      (oldPoles.getD i 0)

/-! ## Arithmetic of the machine integers -/

theorem toInt32_isInt32 (x : Int) : IsInt32 (toInt32 x) := by
  unfold IsInt32 toInt32; omega

theorem toInt32_of_isInt32 {x : Int} (h : IsInt32 x) : toInt32 x = x := by
  unfold IsInt32 at h; unfold toInt32; omega

theorem toUInt32_lt (x : Int) : toUInt32 x < 4294967296 := by
  unfold toUInt32; omega

theorem and_signBit (n : Nat) (h : n < 4294967296) :
    n &&& 2147483648 = if n < 2147483648 then 0 else 2147483648 := by
  have key : n &&& 2 ^ 31 = (decide (n / 2 ^ 31 % 2 = 1)).toNat * 2 ^ 31 := by
    rw [Nat.and_two_pow, Nat.testBit_to_div_mod]
  norm_num at key
  rw [key]
  by_cases hn : n < 2147483648
  · have h1 : n / 2147483648 % 2 ≠ 1 := by omega
    simp [h1, hn]
  · have h1 : n / 2147483648 % 2 = 1 := by omega
    simp [h1, hn]

/-- The masked sign bit of an `int32_t` passed as `uint32_t`. -/
theorem toUInt32_and_signBit (x : Int) (h : IsInt32 x) :
    toUInt32 x &&& 2147483648 = if x < 0 then 2147483648 else 0 := by
  rw [and_signBit _ (toUInt32_lt x)]
  unfold IsInt32 at h
  unfold toUInt32
  split_ifs <;> omega

/-- With the sign mask on bit 31 the overflow test compares the signs of its arguments. -/
theorem overflow_test_signs (K : HeaderConsts) (hK : K.m_IntMSBSet = 2147483648)
    (a b r : Int) (ha : IsInt32 a) (hb : IsInt32 b) (hr : IsInt32 r) :
    IsThereOverflowFromAddSbtrct K (toUInt32 a) (toUInt32 b) (toUInt32 r) = true ↔
      ((a < 0 ↔ b < 0) ∧ ¬ (a < 0 ↔ r < 0)) := by
  unfold IsThereOverflowFromAddSbtrct
  simp only [hK, toUInt32_and_signBit _ ha, toUInt32_and_signBit _ hb,
    toUInt32_and_signBit _ hr]
  by_cases h1 : a < 0 <;> by_cases h2 : b < 0 <;> by_cases h3 : r < 0 <;>
    simp [h1, h2, h3]

/-- A 64-bit value shifted right by `32 + (32 - f)` is below `2 ^ f`. -/
theorem shifted_lt_two_pow (x f : Nat) (hx : x < 18446744073709551616) (hf : f ≤ 31) :
    x / 2 ^ (32 + (32 - f)) < 2 ^ f := by
  rw [Nat.div_lt_iff_lt_mul (Nat.pos_pow_of_pos _ (by norm_num))]
  have e : 2 ^ f * 2 ^ (32 + (32 - f)) = 18446744073709551616 := by
    rw [← pow_add]
    have : f + (32 + (32 - f)) = 64 := by omega
    rw [this]; norm_num
  omega

/-! ## ApplyFilter: failure leaves the scaled reading -/

/-- C1: whenever `ApplyFilter` returns false, whatever the state, the reading, the requested
corner frequency and the `ConfigureFilter` of the object's class, the value left in
`rFilterOutput` is the scaled raw input `r << m_ScaledIntegerLSBBitPos` with 32-bit
wrap-around. -/
theorem ApplyFilter_failure_output (K : HeaderConsts)
    (configure : LowPassFilterFixedPt → Nat → Nat → Bool × LowPassFilterFixedPt)
    (s : LowPassFilterFixedPt) (r : Int) (fc : Nat)
    (h : (ApplyFilter K configure s r fc).1 = false) :
    (ApplyFilter K configure s r fc).2.1 = toInt32 (r * 2 ^ K.m_ScaledIntegerLSBBitPos) := by
  unfold ApplyFilter at h ⊢
  simp only at h ⊢
  split_ifs at h ⊢ <;> simp_all

theorem ApplyFilter_failure_output_witness :
    (ApplyFilter consts32_16 (ConfigureFilter consts32_16) filter4Steady 0 50).1 = false ∧
    (ApplyFilter consts32_16 (ConfigureFilter consts32_16) filter4Steady 0 50).2.1 =
      toInt32 (0 * 2 ^ consts32_16.m_ScaledIntegerLSBBitPos) :=
  ⟨by decide,
   ApplyFilter_failure_output consts32_16 (ConfigureFilter consts32_16) filter4Steady 0 50
     (by decide)⟩

/-! ## The overflow test -/

/-- For an addition the sign test is the overflow test. -/
theorem overflow_test_add (K : HeaderConsts) (hK : K.m_IntMSBSet = 2147483648) (a b : Int)
    (ha : IsInt32 a) (hb : IsInt32 b) :
    IsThereOverflowFromAddSbtrct K (toUInt32 a) (toUInt32 b) (toUInt32 (toInt32 (a + b))) = true
      ↔ ¬ IsInt32 (a + b) := by
  rw [overflow_test_signs K hK a b _ ha hb (toInt32_isInt32 _)]
  unfold IsInt32 at ha hb ⊢
  unfold toInt32
  omega

/-- C4: with the sign mask on bit 31 and `result = a + b` computed with 32-bit wrap-around,
`IsThereOverflowFromAddSbtrct(a, b, result)` is true exactly when the mathematical sum of
the two `int32_t` operands is not an `int32_t` value. -/
theorem IsThereOverflowFromAddSbtrct_add_exact (K : HeaderConsts)
    (hK : K.m_IntMSBSet = 2147483648) (a b : Int) (ha : IsInt32 a) (hb : IsInt32 b) :
    IsThereOverflowFromAddSbtrct K (toUInt32 a) (toUInt32 b) (toUInt32 (toInt32 (a + b))) = true
      ↔ ¬ IsInt32 (a + b) :=
  overflow_test_add K hK a b ha hb

theorem IsThereOverflowFromAddSbtrct_add_exact_witness :
    consts32_16.m_IntMSBSet = 2147483648 ∧ IsInt32 2147483647 ∧ IsInt32 1 ∧
    (IsThereOverflowFromAddSbtrct consts32_16 (toUInt32 2147483647) (toUInt32 1)
        (toUInt32 (toInt32 (2147483647 + 1))) = true ↔ ¬ IsInt32 (2147483647 + 1)) :=
  ⟨rfl, by decide, by decide,
   IsThereOverflowFromAddSbtrct_add_exact consts32_16 rfl 2147483647 1 (by decide) (by decide)⟩

/-- C5: the check the cascade applies to `diff = current - pole` is not the subtraction
overflow test. For `current = 0`, `pole = 1` the difference `-1` is representable, yet the
test returns true and `CalcDiffEquation` returns false at that stage; for
`current = 2147483647`, `pole = -1` the difference is not representable, yet the test
returns false and the stage goes on with the wrapped difference. -/
theorem subtraction_check_diverges :
    (IsInt32 (0 - 1) ∧
      IsThereOverflowFromAddSbtrct consts32_16 (toUInt32 0) (toUInt32 1)
        (toUInt32 (toInt32 (0 - 1))) = true ∧
      CalcDiffStage consts32_16 511 0 1 = none ∧
      (CalcDiffEquation consts32_16 { filter4Steady with m_pole := [1, 1, 1, 1] } 0 511 7).1
        = false) ∧
    (¬ IsInt32 (2147483647 - (-1)) ∧
      IsThereOverflowFromAddSbtrct consts32_16 (toUInt32 2147483647) (toUInt32 (-1))
        (toUInt32 (toInt32 (2147483647 - (-1)))) = false ∧
      CalcDiffStage consts32_16 511 2147483647 (-1) ≠ none) := by
  decide

/-! ## The cascade and its reference recurrence -/

theorem isInt32_shiftRight (y : Int) (k : Nat) (h : IsInt32 y) : IsInt32 (y / 2 ^ k) := by
  have hd : (0 : Int) < 2 ^ k := by positivity
  have hd1 : (1 : Int) ≤ 2 ^ k := hd
  unfold IsInt32 at h ⊢
  constructor
  · apply Int.le_ediv_of_mul_le hd
    nlinarith
  · apply Int.ediv_lt_of_lt_mul hd
    nlinarith

/-- A stage that passes its checks stores the value of the reference stage. -/
theorem CalcDiffStage_eq_ref (K : HeaderConsts) (c cur p v : Int)
    (h : CalcDiffStage K c cur p = some v) : v = refNewPole K c cur p := by
  unfold CalcDiffStage at h
  simp only at h
  split_ifs at h
  simp only [Option.some.injEq] at h
  rw [← h]
  rfl

/-- With the sign mask on bit 31, the two sums of a stage that passes its checks do not
wrap. -/
theorem CalcDiffStage_sums_exact (K : HeaderConsts) (hK : K.m_IntMSBSet = 2147483648)
    (c cur p v : Int) (hp : IsInt32 p) (h : CalcDiffStage K c cur p = some v) :
    v = p + intTerm K c (stageDiff cur p) + fracTerm K c (stageDiff cur p) := by
  unfold CalcDiffStage at h
  simp only at h
  split_ifs at h with h1 h2 h3
  simp only [Option.some.injEq] at h
  have hi : IsInt32 (intTerm K c (stageDiff cur p)) := toInt32_isInt32 _
  have hf : IsInt32 (fracTerm K c (stageDiff cur p)) :=
    isInt32_shiftRight _ _ (toInt32_isInt32 _)
  have h2' : IsInt32 (intTerm K c (stageDiff cur p) + fracTerm K c (stageDiff cur p)) := by
    by_contra hc
    exact h2 ((overflow_test_add K hK _ _ hi hf).2 hc)
  have e2 : toInt32 (intTerm K c (stageDiff cur p) + fracTerm K c (stageDiff cur p))
      = intTerm K c (stageDiff cur p) + fracTerm K c (stageDiff cur p) :=
    toInt32_of_isInt32 h2'
  have h3' : IsInt32 (intTerm K c (stageDiff cur p) + fracTerm K c (stageDiff cur p) + p) := by
    by_contra hc
    apply h3
    have := (overflow_test_add K hK _ _ h2' hp).2 hc
    rw [← e2] at this
    exact this
  have e3 := toInt32_of_isInt32 h3'
  rw [← h]
  show toInt32 (toInt32 (intTerm K c (stageDiff cur p) + fracTerm K c (stageDiff cur p)) + p)
    = _
  rw [e2, e3]
  ring

theorem refIn_cons (K : HeaderConsts) (c cur p : Int) (rest : List Int) (i : Nat) :
    refIn K c cur (p :: rest) (i + 1) = refIn K c (refNewPole K c cur p) rest i := by
  induction i with
  | zero => rfl
  | succ i ih =>
    show refNewPole K c (refIn K c cur (p :: rest) (i + 1)) ((p :: rest).getD (i + 1) 0) = _
    rw [ih]
    rfl

/-- The loop of the cascade, when it succeeds, computes the reference recurrence. -/
theorem CalcDiffLoop_eq_ref (K : HeaderConsts) (c : Int) :
    ∀ (n : Nat) (cur : Int) (poles : List Int), n ≤ poles.length →
      (CalcDiffLoop K c n cur poles).1 = true →
      (CalcDiffLoop K c n cur poles).2.1 = refIn K c cur poles n ∧
      ∀ i, i < n →
        (CalcDiffLoop K c n cur poles).2.2[i]? = some (refIn K c cur poles (i + 1)) := by
  intro n
  induction n with
  | zero =>
    intro cur poles _ _
    exact ⟨rfl, fun i hi => absurd hi (Nat.not_lt_zero i)⟩
  | succ n ih =>
    intro cur poles hlen hok
    cases poles with
    | nil => simp at hlen
    | cons p rest =>
      simp only [List.length_cons, Nat.add_le_add_iff_right] at hlen
      unfold CalcDiffLoop at hok ⊢
      cases hst : CalcDiffStage K c cur p with
      | none => simp [hst] at hok
      | some v =>
        simp only [hst] at hok ⊢
        have hv := CalcDiffStage_eq_ref K c cur p v hst
        obtain ⟨h1, h2⟩ := ih v rest hlen hok
        refine ⟨?_, ?_⟩
        · rw [h1, refIn_cons, hv]
        · intro i hi
          cases i with
          | zero => simp [refIn, hv]
          | succ j =>
            simp only [List.getElem?_cons_succ]
            rw [h2 j (by omega), refIn_cons, hv]

/-- With the sign mask on bit 31 and `int32_t` poles, the sums of the reference recurrence do
not wrap along a successful run of the loop. -/
theorem CalcDiffLoop_sums_exact (K : HeaderConsts) (hK : K.m_IntMSBSet = 2147483648)
    (c : Int) :
    ∀ (n : Nat) (cur : Int) (poles : List Int), n ≤ poles.length →
      (∀ p ∈ poles, IsInt32 p) →
      (CalcDiffLoop K c n cur poles).1 = true →
      ∀ i, i < n →
        refIn K c cur poles (i + 1) = poles.getD i 0
          + intTerm K c (stageDiff (refIn K c cur poles i) (poles.getD i 0))
          + fracTerm K c (stageDiff (refIn K c cur poles i) (poles.getD i 0)) := by
  intro n
  induction n with
  | zero => intro cur poles _ _ _ i hi; exact absurd hi (Nat.not_lt_zero i)
  | succ n ih =>
    intro cur poles hlen hrange hok i hi
    cases poles with
    | nil => simp at hlen
    | cons p rest =>
      simp only [List.length_cons, Nat.add_le_add_iff_right] at hlen
      unfold CalcDiffLoop at hok
      cases hst : CalcDiffStage K c cur p with
      | none => simp [hst] at hok
      | some v =>
        simp only [hst] at hok
        have hv := CalcDiffStage_eq_ref K c cur p v hst
        have hex := CalcDiffStage_sums_exact K hK c cur p v
          (hrange p (List.mem_cons_self _ _)) hst
        cases i with
        | zero =>
          show refNewPole K c cur p = _
          rw [← hv, hex]
          rfl
        | succ j =>
          have := ih v rest hlen (fun q hq => hrange q (List.mem_cons_of_mem _ hq)) hok j
            (by omega)
          rw [refIn_cons, refIn_cons, ← hv, this]
          rfl

/-- C3: when `CalcDiffEquation` returns true for a filter whose pole count is at most the
capacity of the pole bank, every pole `i < N` holds the value of stage `i` of the reference
recurrence (`in_0` the scaled input, `in_i` the new pole `i - 1`, operations in 32-bit
registers), the returned value is the scaled input when `N = 0` and the new pole `N - 1`
otherwise; and with the sign mask on bit 31 and `int32_t` poles each new pole is
`old pole + intTerm + fracTerm` without wrap-around in the two sums. -/
theorem CalcDiffEquation_reference (K : HeaderConsts) (s : LowPassFilterFixedPt)
    (x c out0 : Int) (hN : s.m_NumberOfPoles ≤ s.m_pole.length)
    (h : (CalcDiffEquation K s x c out0).1 = true) :
    (∀ i, i < s.m_NumberOfPoles →
      (CalcDiffEquation K s x c out0).2.2.m_pole[i]? =
        some (refNewPole K c (refIn K c x s.m_pole i) (s.m_pole.getD i 0))) ∧
    (s.m_NumberOfPoles = 0 → (CalcDiffEquation K s x c out0).2.1 = x) ∧
    (0 < s.m_NumberOfPoles →
      (CalcDiffEquation K s x c out0).2.2.m_pole[s.m_NumberOfPoles - 1]? =
        some (CalcDiffEquation K s x c out0).2.1) ∧
    (K.m_IntMSBSet = 2147483648 → (∀ p ∈ s.m_pole, IsInt32 p) →
      ∀ i, i < s.m_NumberOfPoles →
        refNewPole K c (refIn K c x s.m_pole i) (s.m_pole.getD i 0) = s.m_pole.getD i 0
          + intTerm K c (stageDiff (refIn K c x s.m_pole i) (s.m_pole.getD i 0))
          + fracTerm K c (stageDiff (refIn K c x s.m_pole i) (s.m_pole.getD i 0))) := by
  have hok : (CalcDiffLoop K c s.m_NumberOfPoles x s.m_pole).1 = true := by
    unfold CalcDiffEquation at h
    simp only at h
    split_ifs at h with hc
    exact hc
  obtain ⟨h1, h2⟩ := CalcDiffLoop_eq_ref K c s.m_NumberOfPoles x s.m_pole hN hok
  have e : CalcDiffEquation K s x c out0 =
      (true, (CalcDiffLoop K c s.m_NumberOfPoles x s.m_pole).2.1,
        { s with m_pole := (CalcDiffLoop K c s.m_NumberOfPoles x s.m_pole).2.2 }) := by
    unfold CalcDiffEquation
    simp [hok]
  rw [e]
  refine ⟨fun i hi => h2 i hi, fun h0 => ?_, fun hpos => ?_, fun hK hr i hi => ?_⟩
  · show (CalcDiffLoop K c s.m_NumberOfPoles x s.m_pole).2.1 = x
    rw [h1, h0]
    rfl
  · show (CalcDiffLoop K c s.m_NumberOfPoles x s.m_pole).2.2[s.m_NumberOfPoles - 1]? =
      some (CalcDiffLoop K c s.m_NumberOfPoles x s.m_pole).2.1
    rw [h2 _ (by omega), h1]
    congr 2
    omega
  · exact CalcDiffLoop_sums_exact K hK c s.m_NumberOfPoles x s.m_pole hN hr hok i hi

theorem CalcDiffEquation_reference_witness :
    filter4Steady.m_NumberOfPoles ≤ filter4Steady.m_pole.length ∧
    (CalcDiffEquation consts32_16 filter4Steady 6553600 511 0).1 = true ∧
    (CalcDiffEquation consts32_16 filter4Steady 6553600 511 0).2.2.m_pole[0]? =
      some (refNewPole consts32_16 511 (refIn consts32_16 511 6553600 filter4Steady.m_pole 0)
        (filter4Steady.m_pole.getD 0 0)) :=
  ⟨by decide, by decide,
   (CalcDiffEquation_reference consts32_16 filter4Steady 6553600 511 0 (by decide)
     (by decide)).1 0 (by decide)⟩

/-! ## The tick after a restart -/

theorem InitFilterDataLoop_seeded (v : Int) :
    ∀ (n : Nat) (poles : List Int) (i : Nat), i < n → i < poles.length →
      (InitFilterDataLoop v n poles)[i]? = some v := by
  intro n
  induction n with
  | zero => intro poles i hi; exact absurd hi (Nat.not_lt_zero i)
  | succ n ih =>
    intro poles i hi hlen
    cases poles with
    | nil => simp at hlen
    | cons p rest =>
      cases i with
      | zero => simp [InitFilterDataLoop]
      | succ j =>
        simp only [InitFilterDataLoop, List.getElem?_cons_succ]
        exact ih rest j (by omega) (by simpa using hlen)

/-- A tick that fails on an enabled filter after a successful reconfiguration leaves the
filter waiting for a restart. -/
theorem ApplyFilter_failure_restarts (K : HeaderConsts)
    (configure : LowPassFilterFixedPt → Nat → Nat → Bool × LowPassFilterFixedPt)
    (s : LowPassFilterFixedPt) (r : Int) (fc : Nat) (hen : IsFilteringEnabled s = true)
    (hrc : (ReconfigureWithNewCornerFrequencey configure s fc).1 = true)
    (h : (ApplyFilter K configure s r fc).1 = false) :
    (ApplyFilter K configure s r fc).2.2.m_RestartPending = true := by
  unfold ApplyFilter at h ⊢
  simp only [hen, hrc, Bool.not_true, Bool.false_eq_true, if_false] at h ⊢
  split_ifs at h ⊢
  simp_all [RestartFiltering]

/-- The tick on an enabled filter that waits for a restart, corner frequency unchanged. -/
theorem ApplyFilter_pending (K : HeaderConsts)
    (configure : LowPassFilterFixedPt → Nat → Nat → Bool × LowPassFilterFixedPt)
    (s : LowPassFilterFixedPt) (r : Int) (hen : IsFilteringEnabled s = true)
    (hp : s.m_RestartPending = true) :
    ApplyFilter K configure s r s.m_CornerFreq =
      (true, toInt32 (r * 2 ^ K.m_ScaledIntegerLSBBitPos),
        { InitFilterDataForRestart s (toInt32 (r * 2 ^ K.m_ScaledIntegerLSBBitPos)) with
          m_RestartPending := false }) := by
  simp [ApplyFilter, hen, ReconfigureWithNewCornerFrequencey, HasFilterRestarted, hp]

/-- C2: on an enabled filter that was restarted, by `RestartFiltering` or by a cascade failure
of the previous tick, the tick with an unchanged corner frequency returns true, its output is
the scaled raw input, the object afterwards is the one `InitFilterDataForRestart` seeds with
that value (the cascade contributes nothing), and every pole `i` below the pole count holds
that value, whatever the pole count. -/
theorem ApplyFilter_restart_tick (K : HeaderConsts)
    (configure : LowPassFilterFixedPt → Nat → Nat → Bool × LowPassFilterFixedPt)
    (s : LowPassFilterFixedPt) (r : Int) (hen : IsFilteringEnabled s = true)
    (hrs : (∃ s0, s = RestartFiltering s0) ∨
      (∃ s0 r0 fc0, IsFilteringEnabled s0 = true ∧
        (ReconfigureWithNewCornerFrequencey configure s0 fc0).1 = true ∧
        (ApplyFilter K configure s0 r0 fc0).1 = false ∧
        (ApplyFilter K configure s0 r0 fc0).2.2 = s)) :
    ApplyFilter K configure s r s.m_CornerFreq =
      (true, toInt32 (r * 2 ^ K.m_ScaledIntegerLSBBitPos),
        { InitFilterDataForRestart s (toInt32 (r * 2 ^ K.m_ScaledIntegerLSBBitPos)) with
          m_RestartPending := false }) ∧
    ∀ i, i < s.m_NumberOfPoles → i < s.m_pole.length →
      (ApplyFilter K configure s r s.m_CornerFreq).2.2.m_pole[i]? =
        some (toInt32 (r * 2 ^ K.m_ScaledIntegerLSBBitPos)) := by
  have hp : s.m_RestartPending = true := by
    rcases hrs with ⟨s0, rfl⟩ | ⟨s0, r0, fc0, hen0, hrc, hfail, rfl⟩
    · rfl
    · exact ApplyFilter_failure_restarts K configure s0 r0 fc0 hen0 hrc hfail
  have e := ApplyFilter_pending K configure s r hen hp
  refine ⟨e, fun i hi hlen => ?_⟩
  rw [e]
  exact InitFilterDataLoop_seeded _ _ _ i hi hlen

theorem ApplyFilter_restart_tick_witness :
    (ApplyFilter consts32_16 (ConfigureFilter consts32_16) filter4Steady 0 50).1 = false ∧
    (ApplyFilter consts32_16 (ConfigureFilter consts32_16)
      (ApplyFilter consts32_16 (ConfigureFilter consts32_16) filter4Steady 0 50).2.2 2048 50).1
      = true ∧
    (ApplyFilter consts32_16 (ConfigureFilter consts32_16)
      (ApplyFilter consts32_16 (ConfigureFilter consts32_16) filter4Steady 0 50).2.2 2048 50).2.1
      = 134217728 :=
  ⟨by decide,
   congrArg Prod.fst
     (ApplyFilter_restart_tick consts32_16 (ConfigureFilter consts32_16)
       (ApplyFilter consts32_16 (ConfigureFilter consts32_16) filter4Steady 0 50).2.2 2048
       (by decide)
       (Or.inr ⟨filter4Steady, 0, 50, by decide, by decide, by decide, rfl⟩)).1,
   (congrArg (fun t => t.2.1)
     (ApplyFilter_restart_tick consts32_16 (ConfigureFilter consts32_16)
       (ApplyFilter consts32_16 (ConfigureFilter consts32_16) filter4Steady 0 50).2.2 2048
       (by decide)
       (Or.inr ⟨filter4Steady, 0, 50, by decide, by decide, by decide, rfl⟩)).1).trans
     (by decide)⟩

/-! ## Constant input -/

/-- A stage whose input equals its non-negative pole leaves the pole as it is, when the
rounding bias is below `2 ^ (wordBits - fractionalBits)`. -/
theorem CalcDiffStage_steady (K : HeaderConsts) (hK : K.m_IntMSBSet = 2147483648)
    (hrv : K.m_RoundOffValue < 2 ^ (K.m_IntNumBitsInInt - K.m_NumberOfFrcntlBits))
    (hrv2 : K.m_RoundOffValue < 2147483648) (c v : Int) (hv : IsInt32 v) (h0 : 0 ≤ v) :
    CalcDiffStage K c v v = some v := by
  have z : IsInt32 0 := by decide
  have e0 : toInt32 0 = 0 := by decide
  have u0 : toUInt32 0 = 0 := by decide
  have c1 : IsThereOverflowFromAddSbtrct K (toUInt32 v) (toUInt32 v) (toUInt32 0) = false := by
    rw [Bool.eq_false_iff]
    intro h
    rw [overflow_test_signs K hK v v 0 hv hv z] at h
    omega
  have c2 : IsThereOverflowFromAddSbtrct K (toUInt32 0) (toUInt32 0) (toUInt32 0) = false := by
    rw [Bool.eq_false_iff]
    intro h
    rw [overflow_test_signs K hK 0 0 0 z z z] at h
    omega
  have c3 : IsThereOverflowFromAddSbtrct K (toUInt32 0) (toUInt32 v) (toUInt32 v) = false := by
    rw [Bool.eq_false_iff]
    intro h
    rw [overflow_test_signs K hK 0 v v z hv hv] at h
    omega
  have er : toInt32 (K.m_RoundOffValue : Int) = K.m_RoundOffValue := by
    unfold toInt32; omega
  have ed : (K.m_RoundOffValue : Int) / 2 ^ (K.m_IntNumBitsInInt - K.m_NumberOfFrcntlBits)
      = 0 := by
    apply Int.ediv_eq_zero_of_lt (by omega)
    exact_mod_cast hrv
  have ev : toInt32 v = v := toInt32_of_isInt32 hv
  unfold CalcDiffStage
  simp only [sub_self, e0, u0, c1, c2, c3, Nat.zero_and, Int.zero_ediv, zero_mul, zero_add,
    Nat.cast_zero, er, ed, ev, Bool.false_eq_true, if_false]
  rw [u0] at c1 c2 c3
  simp [u0, e0, er, ed, ev, c1, c2, c3]

/-- The cascade on a freshly seeded pole bank with a non-negative value changes nothing. -/
theorem CalcDiffLoop_steady (K : HeaderConsts) (hK : K.m_IntMSBSet = 2147483648)
    (hrv : K.m_RoundOffValue < 2 ^ (K.m_IntNumBitsInInt - K.m_NumberOfFrcntlBits))
    (hrv2 : K.m_RoundOffValue < 2147483648) (c v : Int) (hv : IsInt32 v) (h0 : 0 ≤ v) :
    ∀ (n : Nat) (poles : List Int),
      CalcDiffLoop K c n v (InitFilterDataLoop v n poles) =
        (true, v, InitFilterDataLoop v n poles) := by
  intro n
  induction n with
  | zero => intro poles; rfl
  | succ n ih =>
    intro poles
    cases poles with
    | nil => rfl
    | cons p rest =>
      simp only [InitFilterDataLoop, CalcDiffLoop,
        CalcDiffStage_steady K hK hrv hrv2 c v hv h0, ih rest]

/-- The part of C6 the code satisfies: after the seed tick with a reading whose scaled value
is non-negative, any number of further ticks with the same reading return true with the
scaled value as output and leave the object unchanged. -/
theorem constant_nonneg_reading_steady (K : HeaderConsts)
    (configure : LowPassFilterFixedPt → Nat → Nat → Bool × LowPassFilterFixedPt)
    (hK : K.m_IntMSBSet = 2147483648)
    (hrv : K.m_RoundOffValue < 2 ^ (K.m_IntNumBitsInInt - K.m_NumberOfFrcntlBits))
    (hrv2 : K.m_RoundOffValue < 2147483648)
    (s : LowPassFilterFixedPt) (r : Int) (hen : IsFilteringEnabled s = true)
    (hp : s.m_RestartPending = true)
    (h0 : 0 ≤ toInt32 (r * 2 ^ K.m_ScaledIntegerLSBBitPos)) (n : Nat) :
    (fun t => (ApplyFilter K configure t r s.m_CornerFreq).2.2)^[n]
        (ApplyFilter K configure s r s.m_CornerFreq).2.2
      = (ApplyFilter K configure s r s.m_CornerFreq).2.2 ∧
    ApplyFilter K configure (ApplyFilter K configure s r s.m_CornerFreq).2.2 r s.m_CornerFreq
      = (true, toInt32 (r * 2 ^ K.m_ScaledIntegerLSBBitPos),
          (ApplyFilter K configure s r s.m_CornerFreq).2.2) := by
  have e := ApplyFilter_pending K configure s r hen hp
  have hen' : IsFilteringEnabled s = true := hen
  unfold IsFilteringEnabled at hen'
  have step : ApplyFilter K configure (ApplyFilter K configure s r s.m_CornerFreq).2.2 r
      s.m_CornerFreq = (true, toInt32 (r * 2 ^ K.m_ScaledIntegerLSBBitPos),
          (ApplyFilter K configure s r s.m_CornerFreq).2.2) := by
    rw [e]
    simp [ApplyFilter, IsFilteringEnabled, hen', ReconfigureWithNewCornerFrequencey,
      HasFilterRestarted, InitFilterDataForRestart, CalcDiffEquation, GetLagCoefficient,
      CalcDiffLoop_steady K hK hrv hrv2 _ _ (toInt32_isInt32 _) h0]
  refine ⟨?_, step⟩
  induction n with
  | zero => rfl
  | succ n ih =>
    rw [Function.iterate_succ_apply']
    rw [ih, step]

theorem constant_nonneg_reading_steady_witness :
    (fun t => (ApplyFilter consts32_16 (ConfigureFilter consts32_16) t 2048 50).2.2)^[500]
        (ApplyFilter consts32_16 (ConfigureFilter consts32_16) filter4 2048 50).2.2
      = (ApplyFilter consts32_16 (ConfigureFilter consts32_16) filter4 2048 50).2.2 ∧
    ApplyFilter consts32_16 (ConfigureFilter consts32_16)
        (ApplyFilter consts32_16 (ConfigureFilter consts32_16) filter4 2048 50).2.2 2048 50
      = (true, toInt32 (2048 * 2 ^ consts32_16.m_ScaledIntegerLSBBitPos),
          (ApplyFilter consts32_16 (ConfigureFilter consts32_16) filter4 2048 50).2.2) :=
  constant_nonneg_reading_steady consts32_16 (ConfigureFilter consts32_16) rfl (by decide)
    (by decide) filter4 2048 rfl rfl (by decide) 500

/-- C6: with 32-bit registers, 16 fractional bits and four poles, the constant reading `-1`
breaks the steady state: the seed tick succeeds and sets every pole to `-65536`, and the
next tick with the same reading returns false, because the check on `diff = 0` sees two
negative operands and a non-negative result. -/
theorem constant_negative_reading_fails :
    ApplyFilter consts32_16 (ConfigureFilter consts32_16) filter4 (-1) 50 =
      (true, -65536,
        { filter4 with m_pole := [-65536, -65536, -65536, -65536], m_RestartPending := false })
    ∧ IsThereOverflowFromAddSbtrct consts32_16 (toUInt32 (-65536)) (toUInt32 (-65536))
        (toUInt32 (toInt32 (-65536 - -65536))) = true
    ∧ ApplyFilter consts32_16 (ConfigureFilter consts32_16)
        { filter4 with m_pole := [-65536, -65536, -65536, -65536], m_RestartPending := false }
        (-1) 50 =
      (false, -65536,
        { filter4 with m_pole := [-65536, -65536, -65536, -65536], m_RestartPending := true })
    := by
  decide

/-! ## ConfigureFilter -/

/-- C7: the base-engine `ConfigureFilter` returns true for every corner frequency and sampling
period; afterwards the stored corner frequency and sampling period are the two arguments, the
pole bank is the one before the call, and the stored lag coefficient is the same whatever the
object held before (previous coefficient, pole bank and the other members). -/
theorem ConfigureFilter_result (K : HeaderConsts) (s : LowPassFilterFixedPt) (fc T : Nat) :
    (ConfigureFilter K s fc T).1 = true ∧
    (ConfigureFilter K s fc T).2.m_CornerFreq = fc ∧
    (ConfigureFilter K s fc T).2.m_SamplingPeriod = T ∧
    (ConfigureFilter K s fc T).2.m_pole = s.m_pole ∧
    ∀ s0 : LowPassFilterFixedPt,
      (ConfigureFilter K s0 fc T).2.m_LagCoefficient =
        (ConfigureFilter K s fc T).2.m_LagCoefficient := by
  simp [ConfigureFilter, SetCornerFreq, SetSamplingPeriod, SetLagCoefficient]

/-- The 64-bit steps of `ConfigureFilter` compute `accum * (2^32 - accum) + ROUND_OFF_FRAC_64`
modulo `2^64`. -/
theorem accum_product (P fc T R : Nat) :
    ((toUInt64 (toUInt64 (toUInt64 (toUInt64 (P * fc) * T) *
      toUInt64 (4294967296 + (18446744073709551616 - toUInt64 (toUInt64 (P * fc) * T)))) + R)
      : Nat) : Int) =
    ((((P : Int) * fc * T) % 18446744073709551616) *
      (4294967296 - ((P : Int) * fc * T) % 18446744073709551616) + R)
        % 18446744073709551616 := by
  have ha : ((toUInt64 (toUInt64 (P * fc) * T) : Nat) : Int)
      = ((P : Int) * fc * T) % 18446744073709551616 := by
    unfold toUInt64
    push_cast
    exact ((Int.mod_modEq _ _).mul_right _)
  have hlt : toUInt64 (toUInt64 (P * fc) * T) < 18446744073709551616 := by
    unfold toUInt64; omega
  generalize toUInt64 (toUInt64 (P * fc) * T) = a at ha hlt ⊢
  rw [← ha]
  have hb : ((toUInt64 (4294967296 + (18446744073709551616 - a)) : Nat) : Int)
      ≡ 4294967296 - (a : Int) [ZMOD 18446744073709551616] := by
    unfold toUInt64
    rw [Int.ModEq]
    omega
  unfold toUInt64 at hb ⊢
  push_cast at hb ⊢
  exact ((Int.mod_modEq _ _).trans (hb.mul_left _)).add_right _

theorem ConfigureFilter_lag_eq_spec (K : HeaderConsts) (s : LowPassFilterFixedPt)
    (fc T : Nat) :
    (ConfigureFilter K s fc T).2.m_LagCoefficient =
      specLagCoefficient K (lagShiftCount K) fc T := by
  simp only [ConfigureFilter, SetCornerFreq, SetSamplingPeriod, SetLagCoefficient,
    specLagCoefficient]
  rw [← accum_product]
  norm_cast

/-- For `fractionalBits ≤ wordBits` the shift count is `wordBits + (wordBits - fractionalBits)`
with no negative difference. -/
theorem lagShiftCount_of_le (K : HeaderConsts)
    (hf : K.m_NumberOfFrcntlBits ≤ K.m_IntNumBitsInInt) :
    lagShiftCount K = K.m_IntNumBitsInInt + (K.m_IntNumBitsInInt - K.m_NumberOfFrcntlBits) := by
  unfold lagShiftCount
  omega

/-- C8, as stated, fails: in a format with 32-bit words and 8 fractional bits the stored
coefficient is not the value shifted right by `wordBits + fractionalBits`. -/
theorem ConfigureFilter_lag_shift_counterexample :
    (ConfigureFilter consts32_8 filter4 50 50).2.m_LagCoefficient ≠
      specLagCoefficient consts32_8
        (consts32_8.m_IntNumBitsInInt + consts32_8.m_NumberOfFrcntlBits) 50 50 := by
  decide

/-- C8, amended: the stored lag coefficient is the low 32 bits of
`(accum * (2^32 - accum) + ROUND_OFF_FRAC_64) mod 2^64` shifted right by
`wordBits + (wordBits - fractionalBits)`, for every format with
`fractionalBits ≤ wordBits`; that shift is `wordBits + fractionalBits` when
`wordBits = 2 * fractionalBits`. -/
theorem ConfigureFilter_lag_formula (K : HeaderConsts) (s : LowPassFilterFixedPt)
    (fc T : Nat) (hf : K.m_NumberOfFrcntlBits ≤ K.m_IntNumBitsInInt) :
    (ConfigureFilter K s fc T).2.m_LagCoefficient =
      specLagCoefficient K
        (K.m_IntNumBitsInInt + (K.m_IntNumBitsInInt - K.m_NumberOfFrcntlBits)) fc T ∧
    ((K.m_IntNumBitsInInt + (K.m_IntNumBitsInInt - K.m_NumberOfFrcntlBits) : Nat) : Int) =
      2 * K.m_IntNumBitsInInt - K.m_NumberOfFrcntlBits ∧
    (K.m_IntNumBitsInInt = 2 * K.m_NumberOfFrcntlBits →
      (ConfigureFilter K s fc T).2.m_LagCoefficient =
        specLagCoefficient K (K.m_IntNumBitsInInt + K.m_NumberOfFrcntlBits) fc T) := by
  refine ⟨?_, by omega, fun h => ?_⟩
  · rw [ConfigureFilter_lag_eq_spec, lagShiftCount_of_le K hf]
  · rw [ConfigureFilter_lag_eq_spec, lagShiftCount_of_le K hf]
    congr 1
    omega

theorem ConfigureFilter_lag_formula_witness :
    consts32_16.m_NumberOfFrcntlBits ≤ consts32_16.m_IntNumBitsInInt ∧
    (ConfigureFilter consts32_16 filter4 50 50).2.m_LagCoefficient =
      specLagCoefficient consts32_16 48 50 50 ∧
    (ConfigureFilter consts32_16 filter4 50 50).2.m_LagCoefficient = 511 :=
  ⟨by decide,
   ((ConfigureFilter_lag_formula consts32_16 filter4 50 50 (by decide)).2.2 rfl).trans rfl,
   by decide⟩

/-- C9: for a 32-bit word and `1 ≤ fractionalBits ≤ 31`, the lag coefficient stored by
`ConfigureFilter` is below `2 ^ fractionalBits` for every corner frequency and sampling
period, also when `PI_OMEGA * fc * T` exceeds `2^32`; the `int32_t` the cascade reads through
`GetLagCoefficient` is the same value, so it is in `[0, 2 ^ fractionalBits)`. -/
theorem ConfigureFilter_lag_range (K : HeaderConsts) (s : LowPassFilterFixedPt) (fc T : Nat)
    (hw : K.m_IntNumBitsInInt = 32) (hf1 : 1 ≤ K.m_NumberOfFrcntlBits)
    (hf2 : K.m_NumberOfFrcntlBits ≤ 31) :
    (ConfigureFilter K s fc T).2.m_LagCoefficient < 2 ^ K.m_NumberOfFrcntlBits ∧
    0 ≤ toInt32 (GetLagCoefficient (ConfigureFilter K s fc T).2) ∧
    toInt32 (GetLagCoefficient (ConfigureFilter K s fc T).2) < 2 ^ K.m_NumberOfFrcntlBits := by
  obtain ⟨P, R, w, f, rv, msb, pos⟩ := K
  simp only at hw hf1 hf2
  subst hw
  have hs : lagShiftCount ⟨P, R, 32, f, rv, msb, pos⟩ = 32 + (32 - f) := by
    unfold lagShiftCount
    simp only
    omega
  simp only [ConfigureFilter, SetCornerFreq, SetSamplingPeriod, SetLagCoefficient,
    GetLagCoefficient, hs]
  have hx : toUInt64 (toUInt64 (toUInt64 (toUInt64 (P * fc) * T) *
      toUInt64 (4294967296 + (18446744073709551616 - toUInt64 (toUInt64 (P * fc) * T)))) + R)
      < 18446744073709551616 := by
    unfold toUInt64; omega
  generalize toUInt64 (toUInt64 (toUInt64 (toUInt64 (P * fc) * T) *
    toUInt64 (4294967296 + (18446744073709551616 - toUInt64 (toUInt64 (P * fc) * T)))) + R) = x
    at hx ⊢
  have hy := shifted_lt_two_pow x f hx hf2
  have hf31 : 2 ^ f ≤ 2147483648 := by
    have := Nat.pow_le_pow_right (show 0 < 2 by norm_num) hf2
    norm_num at this
    exact this
  have hmod : x / 2 ^ (32 + (32 - f)) % 4294967296 = x / 2 ^ (32 + (32 - f)) := by
    apply Nat.mod_eq_of_lt; omega
  rw [hmod]
  have hcast : ((2 : Int) ^ f) = ((2 ^ f : Nat) : Int) := by push_cast; rfl
  refine ⟨hy, ?_, ?_⟩
  · unfold toInt32; omega
  · rw [hcast]; unfold toInt32; omega

theorem ConfigureFilter_lag_range_witness :
    consts32_16.m_IntNumBitsInInt = 32 ∧ 1 ≤ consts32_16.m_NumberOfFrcntlBits ∧
    consts32_16.m_NumberOfFrcntlBits ≤ 31 ∧
    (ConfigureFilter consts32_16 filter4 4294967295 4294967295).2.m_LagCoefficient
      < 2 ^ consts32_16.m_NumberOfFrcntlBits :=
  ⟨rfl, by decide, by decide,
   (ConfigureFilter_lag_range consts32_16 filter4 4294967295 4294967295 rfl (by decide)
     (by decide)).1⟩

/-! ## ApplyFilter on a disabled filter -/

/-- C10: on a disabled filter `ApplyFilter` returns false, leaves the scaled raw input in
`rFilterOutput` and leaves the object as it was (corner frequency, sampling period, lag
coefficient, every pole), whatever corner frequency is requested. -/
theorem ApplyFilter_disabled (K : HeaderConsts)
    (configure : LowPassFilterFixedPt → Nat → Nat → Bool × LowPassFilterFixedPt)
    (s : LowPassFilterFixedPt) (r : Int) (fc : Nat) (h : IsFilteringEnabled s = false) :
    ApplyFilter K configure s r fc =
      (false, toInt32 (r * 2 ^ K.m_ScaledIntegerLSBBitPos), s) := by
  simp [ApplyFilter, h]

theorem ApplyFilter_disabled_witness :
    IsFilteringEnabled { filter4 with m_FilteringEnabled := false } = false ∧
    ApplyFilter consts32_16 (ConfigureFilter consts32_16)
        { filter4 with m_FilteringEnabled := false } 2048 100 =
      (false, toInt32 (2048 * 2 ^ consts32_16.m_ScaledIntegerLSBBitPos),
        { filter4 with m_FilteringEnabled := false }) :=
  ⟨rfl, ApplyFilter_disabled consts32_16 (ConfigureFilter consts32_16)
    { filter4 with m_FilteringEnabled := false } 2048 100 rfl⟩

/-! ## InitFilterDataForRestart -/

theorem InitFilterDataLoop_length (v : Int) :
    ∀ (n : Nat) (poles : List Int), (InitFilterDataLoop v n poles).length = poles.length := by
  intro n
  induction n with
  | zero => intro poles; rfl
  | succ n ih =>
    intro poles
    cases poles with
    | nil => rfl
    | cons p rest => simp [InitFilterDataLoop, ih rest]

theorem InitFilterDataLoop_beyond (v : Int) :
    ∀ (n : Nat) (poles : List Int) (i : Nat), n ≤ i →
      (InitFilterDataLoop v n poles)[i]? = poles[i]? := by
  intro n
  induction n with
  | zero => intro poles i _; rfl
  | succ n ih =>
    intro poles i hi
    cases poles with
    | nil => rfl
    | cons p rest =>
      cases i with
      | zero => omega
      | succ j =>
        simp only [InitFilterDataLoop, List.getElem?_cons_succ]
        exact ih rest j (by omega)

/-- C11: after `InitFilterDataForRestart(v)` every pole `i < min(m_NumberOfPoles, capacity)`
holds `v`, every pole at an index from that bound on is unchanged, the capacity is the same,
and all the other members (corner frequency, sampling period, lag coefficient, resolution,
pole count, flags) are unchanged. -/
theorem InitFilterDataForRestart_result (s : LowPassFilterFixedPt) (v : Int) :
    (∀ i, i < min s.m_NumberOfPoles s.m_pole.length →
      (InitFilterDataForRestart s v).m_pole[i]? = some v) ∧
    (∀ i, min s.m_NumberOfPoles s.m_pole.length ≤ i →
      (InitFilterDataForRestart s v).m_pole[i]? = s.m_pole[i]?) ∧
    (InitFilterDataForRestart s v).m_pole.length = s.m_pole.length ∧
    InitFilterDataForRestart s v = { s with m_pole := (InitFilterDataForRestart s v).m_pole } := by
  refine ⟨fun i hi => ?_, fun i hi => ?_, ?_, rfl⟩
  · exact InitFilterDataLoop_seeded v _ _ i (by omega) (by omega)
  · show (InitFilterDataLoop v s.m_NumberOfPoles s.m_pole)[i]? = s.m_pole[i]?
    by_cases h : s.m_NumberOfPoles ≤ i
    · exact InitFilterDataLoop_beyond v _ _ i h
    · have hlen : s.m_pole.length ≤ i := by omega
      rw [List.getElem?_eq_none (by rw [InitFilterDataLoop_length]; exact hlen),
        List.getElem?_eq_none hlen]
  · exact InitFilterDataLoop_length v _ _

theorem InitFilterDataForRestart_result_witness :
    (InitFilterDataForRestart { filter4Steady with m_NumberOfPoles := 2 } 7).m_pole
      = [7, 7, 65536, 65536] ∧
    (InitFilterDataForRestart { filter4Steady with m_NumberOfPoles := 2 } 7).m_pole[1]? = some 7 ∧
    (InitFilterDataForRestart { filter4Steady with m_NumberOfPoles := 9 } 7).m_pole
      = [7, 7, 7, 7] :=
  ⟨by decide,
   (InitFilterDataForRestart_result { filter4Steady with m_NumberOfPoles := 2 } 7).1 1
     (by decide),
   by decide⟩

/-! ## ADCFilter::ConfigureFilter -/

/-- C12: for a corner frequency outside `{100, 50, 25, 10, 5, 1}`, and likewise for a sampling
period other than the reference period, `ADCFilter::ConfigureFilter` returns false and leaves
the object as it was, in particular the lag coefficient and the shift factor. -/
theorem ADCFilter_ConfigureFilter_rejects (shiftFor : Nat → Int) (a : ADCFilter) (fc T : Nat)
    (h : fc ∉ VALID_FREQUENCIES ∨ T ≠ REFERENCE_SAMPLING_PERIOD) :
    (ADCFilter.ConfigureFilter shiftFor a fc T).1 = false ∧
    (ADCFilter.ConfigureFilter shiftFor a fc T).2.m_LagCoefficient = a.m_LagCoefficient ∧
    (ADCFilter.ConfigureFilter shiftFor a fc T).2.m_FrequencyShiftFactor
      = a.m_FrequencyShiftFactor ∧
    (ADCFilter.ConfigureFilter shiftFor a fc T).2 = a := by
  have hc : T ≠ REFERENCE_SAMPLING_PERIOD ∨ fc ∉ VALID_FREQUENCIES := h.symm
  simp [ADCFilter.ConfigureFilter, hc]

theorem ADCFilter_ConfigureFilter_rejects_witness :
    (60 ∉ VALID_FREQUENCIES ∧
      ADCFilter.ConfigureFilter (fun _ => 5) adcFilter4 60 50 = (false, adcFilter4)) ∧
    ((49 : Nat) ≠ REFERENCE_SAMPLING_PERIOD ∧
      ADCFilter.ConfigureFilter (fun _ => 5) adcFilter4 100 49 = (false, adcFilter4)) ∧
    (ADCFilter.ConfigureFilter (fun _ => 5) adcFilter4 100 50).1 = true :=
  ⟨⟨by decide, Prod.ext
      (ADCFilter_ConfigureFilter_rejects (fun _ => 5) adcFilter4 60 50 (Or.inl (by decide))).1
      (ADCFilter_ConfigureFilter_rejects (fun _ => 5) adcFilter4 60 50
        (Or.inl (by decide))).2.2.2⟩,
   ⟨by decide, by decide⟩, by decide⟩

/-! ## IsFilterOutputValid -/

/-- With the sign mask on bit 31, `IsFilterOutputValid` on a sum computed with wrap-around
is true exactly when the addition overflowed. -/
theorem IsFilterOutputValid_iff_overflow (K : HeaderConsts) (hK : K.m_IntMSBSet = 2147483648)
    (a b : Int) (ha : IsInt32 a) (hb : IsInt32 b) :
    IsFilterOutputValid K a b (toInt32 (a + b)) = true ↔ ¬ IsInt32 (a + b) :=
  overflow_test_add K hK a b ha hb

/-- C14: `IsFilterOutputValid` answers the opposite of its name. For `1 + 1 = 2`, a valid
output, it returns false; for `2147483647 + 1`, which overflows to `-2147483648`, it returns
true. -/
theorem IsFilterOutputValid_inverted :
    (IsInt32 (1 + 1) ∧ IsFilterOutputValid consts32_16 1 1 (toInt32 (1 + 1)) = false) ∧
    (¬ IsInt32 (2147483647 + 1) ∧
      IsFilterOutputValid consts32_16 2147483647 1 (toInt32 (2147483647 + 1)) = true) := by
  decide

/-! ## The split multiply of a stage -/

/-- Masking with `2^16 - 1` keeps the remainder modulo `2^16`. -/
theorem and_fraction (diff : Int) :
    ((toUInt32 diff &&& 65535 : Nat) : Int) = diff % 65536 := by
  have e : (65535 : Nat) = 2 ^ 16 - 1 := by norm_num
  rw [e, Nat.and_pow_two_sub_one_eq_mod]
  unfold toUInt32
  omega

/-- For a coefficient below `2^15` the products and sums of the split multiply stay in 32
bits and add up to the rounded product. -/
theorem split_product (diff c : Int) (hc0 : 0 ≤ c) (hc : c < 32768) (hd : IsInt32 diff) :
    IsInt32 (diff / 65536 * c) ∧ IsInt32 (diff % 65536 * c) ∧
    IsInt32 (diff % 65536 * c + 32768) ∧
    IsInt32 (diff / 65536 * c + (diff % 65536 * c + 32768) / 65536) ∧
    diff / 65536 * c + (diff % 65536 * c + 32768) / 65536 = (diff * c + 32768) / 65536 := by
  unfold IsInt32 at hd ⊢
  have hq1 : -32768 ≤ diff / 65536 := by omega
  have hq2 : diff / 65536 ≤ 32767 := by omega
  have hr1 : 0 ≤ diff % 65536 := by omega
  have hr2 : diff % 65536 ≤ 65535 := by omega
  have hsplit : diff = 65536 * (diff / 65536) + diff % 65536 := by omega
  generalize diff / 65536 = q at *
  generalize diff % 65536 = r at *
  have hqc1 : -1073741824 ≤ q * c := by nlinarith
  have hqc2 : q * c ≤ 1073741824 := by nlinarith
  have hrc1 : 0 ≤ r * c := by nlinarith
  have hrc2 : r * c ≤ 65535 * 32767 := by nlinarith
  have hf1 : 0 ≤ (r * c + 32768) / 65536 := by omega
  have hf2 : (r * c + 32768) / 65536 ≤ 32768 := by omega
  refine ⟨⟨by omega, by omega⟩, ⟨by omega, by omega⟩, ⟨by omega, by omega⟩,
    ⟨by omega, by omega⟩, ?_⟩
  have e : diff * c + 32768 = (r * c + 32768) + 65536 * (q * c) := by
    rw [hsplit]; ring
  rw [e, Int.add_mul_ediv_left _ _ (by norm_num : (65536 : Int) ≠ 0)]
  ring

/-- For a coefficient below `2^15` the rounded product lies between zero and the
difference. -/
theorem rounded_product_bounds (d c : Int) (hc0 : 0 ≤ c) (hc : c < 32768) :
    (0 ≤ d → 0 ≤ (d * c + 32768) / 65536 ∧ (d * c + 32768) / 65536 ≤ d) ∧
    (d < 0 → d ≤ (d * c + 32768) / 65536 ∧ (d * c + 32768) / 65536 ≤ 0) := by
  constructor
  · intro hd
    have h1 : 0 ≤ d * c := by nlinarith
    have h2 : d * c ≤ 32767 * d := by nlinarith
    generalize d * c = m at *
    omega
  · intro hd
    have h1 : d * c ≤ 0 := by nlinarith
    have h2 : 32767 * d ≤ d * c := by nlinarith
    generalize d * c = m at *
    omega
theorem format32_16_terms (K : HeaderConsts) (hw : K.m_IntNumBitsInInt = 32)
    (hf : K.m_NumberOfFrcntlBits = 16) (hr : K.m_RoundOffValue = 32768) (c diff : Int)
    (hc0 : 0 ≤ c) (hc : c < 32768) (hd : IsInt32 diff) :
    intTerm K c diff = diff / 65536 * c ∧
    fracTerm K c diff = (diff % 65536 * c + 32768) / 65536 ∧
    toInt32 (intTerm K c diff + fracTerm K c diff) = (diff * c + 32768) / 65536 := by
  obtain ⟨h1, h2, h3, h4, h5⟩ := split_product diff c hc0 hc hd
  have hm : fractionMask K = 65535 := by
    unfold fractionMask
    rw [hr]
    decide
  have ei : intTerm K c diff = diff / 65536 * c := by
    unfold intTerm
    rw [hf]
    exact toInt32_of_isInt32 h1
  have ef : fracTerm K c diff = (diff % 65536 * c + 32768) / 65536 := by
    unfold fracTerm
    rw [hm, and_fraction, hw, hf, hr]
    have e0 : toInt32 (diff % 65536) = diff % 65536 := by unfold toInt32; omega
    rw [e0, toInt32_of_isInt32 h2]
    have e1 : toInt32 (diff % 65536 * c + ((32768 : Nat) : Int)) = diff % 65536 * c + 32768 :=
      toInt32_of_isInt32 h3
    rw [e1]
    rfl
  refine ⟨ei, ef, ?_⟩
  rw [ei, ef, toInt32_of_isInt32 h4, h5]

/-- C15: with 32-bit words, 16 fractional bits, rounding bias `2^15` and `0 ≤ c < 2^15`, for
every `int32_t` difference the two products and the two sums of the split multiply stay in the
`int32_t` range, `intTerm` and `fracTerm` are the exact values, and `intTerm + fracTerm` as
computed is `floor((diff * c + 2^15) / 2^16)`; a stage of `CalcDiffEquation` that passes its
checks stores that value plus the old pole. -/
theorem split_multiply_is_rounded_product (K : HeaderConsts) (hw : K.m_IntNumBitsInInt = 32)
    (hf : K.m_NumberOfFrcntlBits = 16) (hr : K.m_RoundOffValue = 32768) (c diff : Int)
    (hc0 : 0 ≤ c) (hc : c < 32768) (hd : IsInt32 diff) :
    (IsInt32 (diff / 65536 * c) ∧ IsInt32 (diff % 65536 * c) ∧
      IsInt32 (diff % 65536 * c + 32768) ∧
      IsInt32 (diff / 65536 * c + (diff % 65536 * c + 32768) / 65536)) ∧
    intTerm K c diff = diff / 65536 * c ∧
    fracTerm K c diff = (diff % 65536 * c + 32768) / 65536 ∧
    toInt32 (intTerm K c diff + fracTerm K c diff) = (diff * c + 32768) / 65536 ∧
    ∀ cur p v : Int, toInt32 (cur - p) = diff → CalcDiffStage K c cur p = some v →
      v = toInt32 ((diff * c + 32768) / 65536 + p) := by
  obtain ⟨h1, h2, h3, h4, _⟩ := split_product diff c hc0 hc hd
  obtain ⟨ei, ef, es⟩ := format32_16_terms K hw hf hr c diff hc0 hc hd
  refine ⟨⟨h1, h2, h3, h4⟩, ei, ef, es, fun cur p v hdiff hst => ?_⟩
  rw [CalcDiffStage_eq_ref K c cur p v hst]
  unfold refNewPole stageDiff
  rw [hdiff, es]

theorem split_multiply_is_rounded_product_witness :
    toInt32 (intTerm consts32_16 511 (-6553601) + fracTerm consts32_16 511 (-6553601))
      = (-6553601 * 511 + 32768) / 65536 ∧
    toInt32 (intTerm consts32_16 511 (-6553601) + fracTerm consts32_16 511 (-6553601))
      = -51100 :=
  ⟨(split_multiply_is_rounded_product consts32_16 rfl rfl rfl 511 (-6553601) (by decide)
      (by decide) (by decide)).2.2.2.1,
   by decide⟩

/-- C16: with 32-bit words, 16 fractional bits, rounding bias `2^15` and `0 ≤ c < 2^15`, a
stage whose difference `input - old pole` is an `int32_t` value and that passes its checks
stores a pole between the old pole and the stage input, both included. -/
theorem stage_no_overshoot (K : HeaderConsts) (hw : K.m_IntNumBitsInInt = 32)
    (hf : K.m_NumberOfFrcntlBits = 16) (hr : K.m_RoundOffValue = 32768) (c cur p v : Int)
    (hc0 : 0 ≤ c) (hc : c < 32768) (hcur : IsInt32 cur) (hp : IsInt32 p)
    (hd : IsInt32 (cur - p)) (h : CalcDiffStage K c cur p = some v) :
    min p cur ≤ v ∧ v ≤ max p cur := by
  obtain ⟨_, _, es⟩ := format32_16_terms K hw hf hr c (cur - p) hc0 hc hd
  have hv : v = toInt32 (((cur - p) * c + 32768) / 65536 + p) := by
    rw [CalcDiffStage_eq_ref K c cur p v h]
    unfold refNewPole stageDiff
    rw [toInt32_of_isInt32 hd, es]
  obtain ⟨hpos, hneg⟩ := rounded_product_bounds (cur - p) c hc0 hc
  unfold IsInt32 at hcur hp
  rw [hv]
  generalize ((cur - p) * c + 32768) / 65536 = L at *
  unfold toInt32
  by_cases hsign : 0 ≤ cur - p
  · obtain ⟨a, b⟩ := hpos hsign
    rw [min_def, max_def]
    split_ifs <;> omega
  · obtain ⟨a, b⟩ := hneg (by omega)
    rw [min_def, max_def]
    split_ifs <;> omega

theorem stage_no_overshoot_witness :
    CalcDiffStage consts32_16 511 6553600 65536 = some 116125 ∧
    min 65536 6553600 ≤ (116125 : Int) ∧ (116125 : Int) ≤ max 65536 6553600 :=
  ⟨by decide,
   stage_no_overshoot consts32_16 rfl rfl rfl 511 6553600 65536 116125 (by decide) (by decide)
     (by decide) (by decide) (by decide) (by decide)⟩

/-! ## Monotonicity of the lag coefficient -/

/-- The reference coefficient is monotone in the 64-bit product as long as nothing wraps. -/
theorem specLag_mono (K : HeaderConsts) (shift fc1 fc2 T : Nat) (hs : 32 ≤ shift)
    (hfc : fc1 ≤ fc2) (hx : K.PI_OMEGA * fc2 * T ≤ 2147483648)
    (hround : K.PI_OMEGA * fc2 * T * (4294967296 - K.PI_OMEGA * fc2 * T)
      + K.ROUND_OFF_FRAC_64 < 18446744073709551616) :
    specLagCoefficient K shift fc1 T ≤ specLagCoefficient K shift fc2 T := by
  have h12 : K.PI_OMEGA * fc1 * T ≤ K.PI_OMEGA * fc2 * T :=
    Nat.mul_le_mul_right T (Nat.mul_le_mul_left K.PI_OMEGA hfc)
  have hx2 : ((K.PI_OMEGA * fc2 * T : Nat) : Int) ≤ 2147483648 := by exact_mod_cast hx
  have h12i : ((K.PI_OMEGA * fc1 * T : Nat) : Int) ≤ ((K.PI_OMEGA * fc2 * T : Nat) : Int) := by
    exact_mod_cast h12
  have hr : ((K.PI_OMEGA * fc2 * T : Nat) : Int) * (4294967296 - ((K.PI_OMEGA * fc2 * T : Nat) : Int))
      + (K.ROUND_OFF_FRAC_64 : Int) < 18446744073709551616 := by
    have hsub : ((4294967296 - K.PI_OMEGA * fc2 * T : Nat) : Int)
        = 4294967296 - ((K.PI_OMEGA * fc2 * T : Nat) : Int) := by
      rw [Nat.cast_sub (by omega)]
      rfl
    rw [← hsub]
    exact_mod_cast hround
  unfold specLagCoefficient
  simp only
  have c1 : ((K.PI_OMEGA : Int) * fc1 * T) = ((K.PI_OMEGA * fc1 * T : Nat) : Int) := by
    push_cast; rfl
  have c2 : ((K.PI_OMEGA : Int) * fc2 * T) = ((K.PI_OMEGA * fc2 * T : Nat) : Int) := by
    push_cast; rfl
  rw [c1, c2]
  have hx1 : (0 : Int) ≤ ((K.PI_OMEGA * fc1 * T : Nat) : Int) := Int.natCast_nonneg _
  have hR : (0 : Int) ≤ (K.ROUND_OFF_FRAC_64 : Int) := Int.natCast_nonneg _
  generalize ((K.PI_OMEGA * fc1 * T : Nat) : Int) = x1 at *
  generalize ((K.PI_OMEGA * fc2 * T : Nat) : Int) = x2 at *
  generalize (K.ROUND_OFF_FRAC_64 : Int) = R at *
  have e1 : x1 % 18446744073709551616 = x1 := by omega
  have e2 : x2 % 18446744073709551616 = x2 := by omega
  rw [e1, e2]
  have hA1 : 0 ≤ x1 * (4294967296 - x1) + R := by
    have : 0 ≤ x1 * (4294967296 - x1) := mul_nonneg hx1 (by omega)
    omega
  have hA12 : x1 * (4294967296 - x1) + R ≤ x2 * (4294967296 - x2) + R := by
    nlinarith [mul_nonneg (sub_nonneg.2 h12i) (show (0 : Int) ≤ 4294967296 - x1 - x2 by omega)]
  generalize x1 * (4294967296 - x1) + R = A1 at *
  generalize x2 * (4294967296 - x2) + R = A2 at *
  have a1 : A1 % 18446744073709551616 = A1 := by omega
  have a2 : A2 % 18446744073709551616 = A2 := by omega
  rw [a1, a2]
  have hpos : (0 : Int) < 2 ^ shift := by positivity
  have hbig : (4294967296 : Int) ≤ 2 ^ shift := by
    have := pow_le_pow_right₀ (show (1 : Int) ≤ 2 by norm_num) hs
    norm_num at this
    exact this
  have hB12 : A1 / 2 ^ shift ≤ A2 / 2 ^ shift := Int.ediv_le_ediv hpos hA12
  have hB1 : 0 ≤ A1 / 2 ^ shift := Int.ediv_nonneg hA1 (le_of_lt hpos)
  have hB2 : A2 / 2 ^ shift < 4294967296 := by
    apply Int.ediv_lt_of_lt_mul hpos
    nlinarith
  generalize A1 / 2 ^ shift = B1 at *
  generalize A2 / 2 ^ shift = B2 at *
  omega

/-- C17, as stated, fails: with a shift count of 24 (16-bit words with 8 fractional bits, or
32-bit words with 40 fractional bits) the conversion to `uint32_t` drops high bits, and for
the sampling period 50 the coefficient stored for corner frequency 51 is below the one stored
for 50, although `PI_OMEGA * 51 * 50 ≤ 2^31` and nothing wraps in 64 bits. -/
theorem ConfigureFilter_lag_not_monotone :
    (50 ≤ 51 ∧ consts16_8.PI_OMEGA * 51 * 50 ≤ 2147483648 ∧
      consts16_8.PI_OMEGA * 51 * 50 * (4294967296 - consts16_8.PI_OMEGA * 51 * 50)
        + consts16_8.ROUND_OFF_FRAC_64 < 18446744073709551616 ∧
      (ConfigureFilter consts16_8 filter4 51 50).2.m_LagCoefficient <
        (ConfigureFilter consts16_8 filter4 50 50).2.m_LagCoefficient) ∧
    (lagShiftCount consts32_40 = 24 ∧
      consts32_40.PI_OMEGA * 51 * 50 ≤ 2147483648 ∧
      consts32_40.PI_OMEGA * 51 * 50 * (4294967296 - consts32_40.PI_OMEGA * 51 * 50)
        + consts32_40.ROUND_OFF_FRAC_64 < 18446744073709551616 ∧
      (ConfigureFilter consts32_40 filter4 50 50).2.m_LagCoefficient = 4281118286 ∧
      (ConfigureFilter consts32_40 filter4 51 50).2.m_LagCoefficient = 156121339) := by
  decide

/-- C17, amended: for a format whose shift count `wordBits + (wordBits - fractionalBits)` is
at least 32 and at most 63 (a 32-bit word with 1 to 32 fractional bits), a fixed sampling
period and corner frequencies `fc1 ≤ fc2` with `PI_OMEGA * fc2 * T ≤ 2^31` and a rounding add
that does not wrap, the coefficient `ConfigureFilter(fc1, T)` stores is at most the
coefficient `ConfigureFilter(fc2, T)` stores. -/
theorem ConfigureFilter_lag_monotone (K : HeaderConsts) (s1 s2 : LowPassFilterFixedPt)
    (fc1 fc2 T : Nat)
    (hlo : K.m_NumberOfFrcntlBits + 32 ≤ 2 * K.m_IntNumBitsInInt)
    (hhi : 2 * K.m_IntNumBitsInInt ≤ K.m_NumberOfFrcntlBits + 63)
    (hfc : fc1 ≤ fc2)
    (hx : K.PI_OMEGA * fc2 * T ≤ 2147483648)
    (hround : K.PI_OMEGA * fc2 * T * (4294967296 - K.PI_OMEGA * fc2 * T)
      + K.ROUND_OFF_FRAC_64 < 18446744073709551616) :
    32 ≤ lagShiftCount K ∧ lagShiftCount K ≤ 63 ∧
    (lagShiftCount K : Int) = 2 * K.m_IntNumBitsInInt - K.m_NumberOfFrcntlBits ∧
    (ConfigureFilter K s1 fc1 T).2.m_LagCoefficient ≤
      (ConfigureFilter K s2 fc2 T).2.m_LagCoefficient := by
  have hc : (lagShiftCount K : Int) = 2 * K.m_IntNumBitsInInt - K.m_NumberOfFrcntlBits := by
    unfold lagShiftCount
    omega
  refine ⟨by omega, by omega, hc, ?_⟩
  rw [ConfigureFilter_lag_eq_spec, ConfigureFilter_lag_eq_spec]
  exact specLag_mono K _ fc1 fc2 T (by omega) hfc hx hround

theorem ConfigureFilter_lag_monotone_witness :
    consts32_16.m_NumberOfFrcntlBits + 32 ≤ 2 * consts32_16.m_IntNumBitsInInt ∧
    2 * consts32_16.m_IntNumBitsInInt ≤ consts32_16.m_NumberOfFrcntlBits + 63 ∧ 25 ≤ 50 ∧
    consts32_16.PI_OMEGA * 50 * 50 ≤ 2147483648 ∧
    (ConfigureFilter consts32_16 filter4 25 50).2.m_LagCoefficient ≤
      (ConfigureFilter consts32_16 filter4Steady 50 50).2.m_LagCoefficient ∧
    (ConfigureFilter consts32_16 filter4 25 50).2.m_LagCoefficient = 256 :=
  ⟨by decide, by decide, by decide, by decide,
   (ConfigureFilter_lag_monotone consts32_16 filter4 filter4Steady 25 50 50 (by decide)
     (by decide) (by decide) (by decide) (by decide)).2.2.2,
   by decide⟩

/-! ## A failing cascade -/

/-- The loop of the cascade, when it fails, fails at one stage `k`: the stages before it
passed and wrote their poles, the poles from `k` on are the old ones. -/
theorem CalcDiffLoop_failure (K : HeaderConsts) (c : Int) :
    ∀ (n : Nat) (cur : Int) (poles : List Int),
      (CalcDiffLoop K c n cur poles).1 = false →
      ∃ k, k < n ∧ k < poles.length ∧
        CalcDiffStage K c (refIn K c cur poles k) (poles.getD k 0) = none ∧
        (∀ j, k ≤ j → (CalcDiffLoop K c n cur poles).2.2[j]? = poles[j]?) ∧
        (∀ j, j < k →
          CalcDiffStage K c (refIn K c cur poles j) (poles.getD j 0)
            = some (refIn K c cur poles (j + 1)) ∧
          (CalcDiffLoop K c n cur poles).2.2[j]? = some (refIn K c cur poles (j + 1))) := by
  intro n
  induction n with
  | zero => intro cur poles h; simp [CalcDiffLoop] at h
  | succ n ih =>
    intro cur poles h
    cases poles with
    | nil => simp [CalcDiffLoop] at h
    | cons p rest =>
      unfold CalcDiffLoop at h ⊢
      cases hst : CalcDiffStage K c cur p with
      | none =>
        refine ⟨0, by omega, by simp, ?_, ?_, ?_⟩
        · simpa [refIn] using hst
        · intro j _; rfl
        · intro j hj; omega
      | some v =>
        simp only [hst] at h ⊢
        have hv := CalcDiffStage_eq_ref K c cur p v hst
        obtain ⟨k, hk1, hk2, hk3, hk4, hk5⟩ := ih v rest h
        refine ⟨k + 1, by omega, by simpa using hk2, ?_, ?_, ?_⟩
        · rw [refIn_cons, ← hv]
          simpa using hk3
        · intro j hj
          cases j with
          | zero => omega
          | succ i =>
            simp only [List.getElem?_cons_succ]
            exact hk4 i (by omega)
        · intro j hj
          cases j with
          | zero =>
            refine ⟨?_, ?_⟩
            · show CalcDiffStage K c cur p = some (refNewPole K c cur p)
              rw [hst, hv]
            · simp [refIn, ← hv]
          | succ i =>
            obtain ⟨a, b⟩ := hk5 i (by omega)
            rw [refIn_cons, refIn_cons, ← hv]
            refine ⟨?_, ?_⟩
            · simpa using a
            · simpa using b

/-- C18: when `CalcDiffEquation` returns false, `rFilteredValue` keeps the value it had on
entry, and there is a stage `k` below the pole count and the capacity whose check failed:
every pole `j ≥ k` keeps its old value, and for every `j < k` stage `j` passed its checks and
pole `j` holds the value that stage wrote. -/
theorem CalcDiffEquation_failure_frame (K : HeaderConsts) (s : LowPassFilterFixedPt)
    (x c out0 : Int) (h : (CalcDiffEquation K s x c out0).1 = false) :
    (CalcDiffEquation K s x c out0).2.1 = out0 ∧
    ∃ k, k < s.m_NumberOfPoles ∧ k < s.m_pole.length ∧
      CalcDiffStage K c (refIn K c x s.m_pole k) (s.m_pole.getD k 0) = none ∧
      (∀ j, k ≤ j → (CalcDiffEquation K s x c out0).2.2.m_pole[j]? = s.m_pole[j]?) ∧
      (∀ j, j < k →
        CalcDiffStage K c (refIn K c x s.m_pole j) (s.m_pole.getD j 0)
          = some (refIn K c x s.m_pole (j + 1)) ∧
        (CalcDiffEquation K s x c out0).2.2.m_pole[j]?
          = some (refIn K c x s.m_pole (j + 1))) := by
  have hok : (CalcDiffLoop K c s.m_NumberOfPoles x s.m_pole).1 = false := by
    unfold CalcDiffEquation at h
    simp only at h
    split_ifs at h with hc
    simpa using hc
  have e : CalcDiffEquation K s x c out0 =
      (false, out0, { s with m_pole := (CalcDiffLoop K c s.m_NumberOfPoles x s.m_pole).2.2 }) := by
    unfold CalcDiffEquation
    simp [hok]
  rw [e]
  exact ⟨rfl, CalcDiffLoop_failure K c s.m_NumberOfPoles x s.m_pole hok⟩

theorem CalcDiffEquation_failure_frame_witness :
    (CalcDiffEquation consts32_16 { filter4Steady with m_pole := [0, 0, 6553600, 5] }
      655360 511 7).1 = false ∧
    (CalcDiffEquation consts32_16 { filter4Steady with m_pole := [0, 0, 6553600, 5] }
      655360 511 7).2.1 = 7 ∧
    (CalcDiffEquation consts32_16 { filter4Steady with m_pole := [0, 0, 6553600, 5] }
      655360 511 7).2.2.m_pole = [5110, 40, 6553600, 5] :=
  ⟨by decide,
   (CalcDiffEquation_failure_frame consts32_16
     { filter4Steady with m_pole := [0, 0, 6553600, 5] } 655360 511 7 (by decide)).1,
   by decide⟩

/-! ## Accesses to the pole bank -/

theorem InitFilterDataLoop_nil (v : Int) (n : Nat) : InitFilterDataLoop v n [] = [] := by
  cases n <;> rfl

theorem writePole_append (pre rest : List Int) (p v : Int) (i : Nat) (hi : i = pre.length) :
    writePole (pre ++ p :: rest) i v = some ((pre ++ [v]) ++ rest) := by
  subst hi
  unfold writePole
  rw [if_pos (by simp)]
  simp

theorem readPole_append (pre rest : List Int) (p : Int) (i : Nat) (hi : i = pre.length) :
    readPole (pre ++ p :: rest) i = some p := by
  subst hi
  unfold readPole
  rw [List.getElem?_append_right (le_refl _)]
  simp

/-- The indexed loop of `InitFilterDataForRestart` never leaves the array, computes what
`InitFilterDataLoop` computes, and accesses the indices from `i` up to the bound. -/
theorem InitFilterDataIndexed_spec (N : Nat) (v : Int) :
    ∀ (rest pre : List Int) (log : List Nat) (i cap : Nat), i = pre.length →
      cap = i + rest.length →
      ∃ log2, InitFilterDataIndexed cap N v i (pre ++ rest) log
          = some (pre ++ InitFilterDataLoop v (N - i) rest, log ++ log2) ∧
        ∀ j, j ∈ log2 ↔ (i ≤ j ∧ j < cap ∧ j < N) := by
  intro rest
  induction rest with
  | nil =>
    intro pre log i cap hi hcap
    refine ⟨[], ?_, ?_⟩
    · rw [InitFilterDataIndexed, dif_neg (by simp at hcap; omega), InitFilterDataLoop_nil]
      simp
    · intro j
      simp at hcap
      simp
      omega
  | cons p rest ih =>
    intro pre log i cap hi hcap
    simp only [List.length_cons] at hcap
    by_cases hN : i < N
    · obtain ⟨log2, h1, h2⟩ := ih (pre ++ [v]) (log ++ [i]) (i + 1) cap (by simp [hi])
        (by omega)
      refine ⟨i :: log2, ?_, ?_⟩
      · rw [InitFilterDataIndexed, dif_pos ⟨by omega, hN⟩, writePole_append pre rest p v i hi]
        simp only
        rw [h1]
        have e : N - i = (N - (i + 1)) + 1 := by omega
        rw [e]
        simp [InitFilterDataLoop]
      · intro j
        simp only [List.mem_cons, h2]
        omega
    · refine ⟨[], ?_, ?_⟩
      · rw [InitFilterDataIndexed, dif_neg (by omega)]
        have e : N - i = 0 := by omega
        rw [e]
        simp [InitFilterDataLoop]
      · intro j
        simp
        omega

theorem CalcDiffLoop_nil (K : HeaderConsts) (c cur : Int) (n : Nat) :
    CalcDiffLoop K c n cur [] = (true, cur, []) := by
  cases n <;> rfl

/-- The indexed loop of `CalcDiffEquation` never leaves the array, computes what
`CalcDiffLoop` computes, and accesses the indices from `i` up to the bound when it succeeds,
up to the failing stage when it fails. -/
theorem CalcDiffIndexed_spec (K : HeaderConsts) (c : Int) (N : Nat) :
    ∀ (rest pre : List Int) (cur : Int) (log : List Nat) (i cap : Nat), i = pre.length →
      cap = i + rest.length →
      ∃ log2, CalcDiffIndexed K c cap N i cur (pre ++ rest) log
          = some (((CalcDiffLoop K c (N - i) cur rest).1, (CalcDiffLoop K c (N - i) cur rest).2.1,
              pre ++ (CalcDiffLoop K c (N - i) cur rest).2.2), log ++ log2) ∧
        ((CalcDiffLoop K c (N - i) cur rest).1 = true →
          ∀ j, j ∈ log2 ↔ (i ≤ j ∧ j < cap ∧ j < N)) ∧
        ((CalcDiffLoop K c (N - i) cur rest).1 = false →
          ∃ k, i ≤ k ∧ k < cap ∧ k < N ∧ ∀ j, j ∈ log2 ↔ (i ≤ j ∧ j ≤ k)) := by
  intro rest
  induction rest with
  | nil =>
    intro pre cur log i cap hi hcap
    refine ⟨[], ?_, ?_, ?_⟩
    · rw [CalcDiffIndexed, dif_neg (by simp at hcap; omega), CalcDiffLoop_nil]
      simp
    · intro _ j
      simp at hcap
      simp
      omega
    · intro h
      rw [CalcDiffLoop_nil] at h
      simp at h
  | cons p rest ih =>
    intro pre cur log i cap hi hcap
    simp only [List.length_cons] at hcap
    by_cases hN : i < N
    · have e : N - i = (N - (i + 1)) + 1 := by omega
      rw [e]
      cases hst : CalcDiffStage K c cur p with
      | none =>
        refine ⟨[i], ?_, ?_, ?_⟩
        · rw [CalcDiffIndexed, dif_pos ⟨by omega, hN⟩, readPole_append pre rest p i hi]
          simp [CalcDiffLoop, hst]
        · intro h
          simp [CalcDiffLoop, hst] at h
        · intro _
          refine ⟨i, le_refl i, by omega, hN, fun j => ?_⟩
          simp
          omega
      | some w =>
        obtain ⟨log2, h1, h2, h3⟩ := ih (pre ++ [w]) w (log ++ [i, i]) (i + 1) cap
          (by simp [hi]) (by omega)
        refine ⟨i :: i :: log2, ?_, ?_, ?_⟩
        · rw [CalcDiffIndexed, dif_pos ⟨by omega, hN⟩, readPole_append pre rest p i hi]
          simp only [hst, writePole_append pre rest p w i hi]
          rw [h1]
          simp [CalcDiffLoop, hst]
        · intro h j
          have h' : (CalcDiffLoop K c (N - (i + 1)) w rest).1 = true := by
            simpa [CalcDiffLoop, hst] using h
          simp only [List.mem_cons, h2 h' j]
          omega
        · intro h
          have h' : (CalcDiffLoop K c (N - (i + 1)) w rest).1 = false := by
            simpa [CalcDiffLoop, hst] using h
          obtain ⟨k, k1, k2, k3, k4⟩ := h3 h'
          refine ⟨k, by omega, k2, k3, fun j => ?_⟩
          simp only [List.mem_cons, k4 j]
          omega
    · have e : N - i = 0 := by omega
      rw [e]
      refine ⟨[], ?_, ?_, ?_⟩
      · rw [CalcDiffIndexed, dif_neg (by omega)]
        simp [CalcDiffLoop]
      · intro _ j
        simp
        omega
      · intro h
        simp [CalcDiffLoop] at h

/-- C13, as stated, fails for `CalcDiffEquation`: with four poles in a bank of four, a check
that fails at stage 0 ends the call after pole 0 alone has been accessed. -/
theorem CalcDiffEquation_touches_fewer_poles :
    CalcDiffEquationIndexed consts32_16 { filter4Steady with m_pole := [1, 1, 1, 1] } 0 511 7
      = some (CalcDiffEquation consts32_16 { filter4Steady with m_pole := [1, 1, 1, 1] }
          0 511 7, [0]) ∧
    1 < min ({ filter4Steady with m_pole := [1, 1, 1, 1] } : LowPassFilterFixedPt).m_NumberOfPoles
      ({ filter4Steady with m_pole := [1, 1, 1, 1] } : LowPassFilterFixedPt).m_pole.length ∧
    1 ∉ [0] := by
  refine ⟨?_, by decide, by decide⟩
  unfold CalcDiffEquationIndexed
  rw [CalcDiffIndexed]
  decide

/-- C13, amended: for every pole count, also one above the capacity, the indexed
`InitFilterDataForRestart` and `CalcDiffEquation` never access `m_pole` outside the array and
compute what the list-based embeddings compute; every index accessed is below
`min(m_NumberOfPoles, capacity)`; `InitFilterDataForRestart`, and `CalcDiffEquation` when it
returns true, access exactly the indices below that bound, and a `CalcDiffEquation` that
returns false accesses exactly the indices up to the stage `k` whose check failed. -/
theorem pole_bank_accesses_in_bounds (K : HeaderConsts) (s : LowPassFilterFixedPt)
    (v x c out0 : Int) :
    (∃ log, InitFilterDataForRestartIndexed s v = some (InitFilterDataForRestart s v, log) ∧
      ∀ j, j ∈ log ↔ j < min s.m_NumberOfPoles s.m_pole.length) ∧
    (∃ log, CalcDiffEquationIndexed K s x c out0 = some (CalcDiffEquation K s x c out0, log) ∧
      (∀ j, j ∈ log → j < min s.m_NumberOfPoles s.m_pole.length) ∧
      ((CalcDiffEquation K s x c out0).1 = true →
        ∀ j, j ∈ log ↔ j < min s.m_NumberOfPoles s.m_pole.length) ∧
      ((CalcDiffEquation K s x c out0).1 = false →
        ∃ k, k < min s.m_NumberOfPoles s.m_pole.length ∧ ∀ j, j ∈ log ↔ j ≤ k)) := by
  constructor
  · obtain ⟨log2, h1, h2⟩ := InitFilterDataIndexed_spec s.m_NumberOfPoles v s.m_pole [] [] 0
      s.m_pole.length rfl (by simp)
    refine ⟨log2, ?_, fun j => ?_⟩
    · unfold InitFilterDataForRestartIndexed
      simp only [List.nil_append, Nat.sub_zero] at h1
      rw [h1]
      rfl
    · rw [h2 j]
      omega
  · obtain ⟨log2, h1, h2, h3⟩ := CalcDiffIndexed_spec K c s.m_NumberOfPoles s.m_pole [] x []
      0 s.m_pole.length rfl (by simp)
    simp only [List.nil_append, Nat.sub_zero] at h1 h2 h3
    have e : CalcDiffEquationIndexed K s x c out0
        = some (CalcDiffEquation K s x c out0, log2) := by
      unfold CalcDiffEquationIndexed CalcDiffEquation
      rw [h1]
      by_cases hc : (CalcDiffLoop K c s.m_NumberOfPoles x s.m_pole).1 = true
      · simp [hc]
      · simp [hc]
    have hflag : (CalcDiffEquation K s x c out0).1
        = (CalcDiffLoop K c s.m_NumberOfPoles x s.m_pole).1 := by
      unfold CalcDiffEquation
      by_cases hc : (CalcDiffLoop K c s.m_NumberOfPoles x s.m_pole).1 = true
      · simp [hc]
      · simp [hc]
    rw [hflag]
    refine ⟨log2, e, fun j hj => ?_, fun ht j => ?_, fun hf => ?_⟩
    · cases hc : (CalcDiffLoop K c s.m_NumberOfPoles x s.m_pole).1 with
      | true =>
        have := (h2 hc j).1 hj
        omega
      | false =>
        obtain ⟨k, _, k2, k3, k4⟩ := h3 hc
        have := (k4 j).1 hj
        omega
    · rw [h2 ht j]
      omega
    · obtain ⟨k, _, k2, k3, k4⟩ := h3 hf
      refine ⟨k, by omega, fun j => ?_⟩
      rw [k4 j]
      omega

theorem pole_bank_accesses_in_bounds_witness :
    ∃ log, InitFilterDataForRestartIndexed { filter4Steady with m_NumberOfPoles := 9 } 7
        = some (InitFilterDataForRestart { filter4Steady with m_NumberOfPoles := 9 } 7, log) ∧
      ∀ j, j ∈ log ↔ j < min 9 4 :=
  (pole_bank_accesses_in_bounds consts32_16 { filter4Steady with m_NumberOfPoles := 9 }
    7 0 511 0).1

end LowPassFilters
